import Mathlib

/-!
# Runtime security policy engine: operator overrides and the module's reload path

A shallow embedding of

* `pkg/security/secl/compiler/eval/oo_dns_name.go` (the `DNSNameCmp` operator overrides),
* `pkg/security/module/module.go` (`LoadPolicies`, `SendEvent`, `HandleEvent`,
  `EventDiscarderFound`, `GetRuleSet`, `getEventTypeEnabled`),
* `pkg/security/secl/model/utils.go` (`FindContainerID`, `UnmarshalString`,
  `UnmarshalPrintableString`, `UnmarshalStringArray`).

Go pointers to evaluators are modelled by explicit state passing: an override that writes
through `a` or `b` returns the operands as it leaves them, next to the value it returns.
Calls on collaborators whose code is not part of the sources are recorded, in program
order, in a log of calls; what such a call returns is an input of the model. The log also
holds the atomic accesses to `reloading` and `currentRuleSet`, so that the state another
goroutine would observe between two calls can be read off a prefix of the log. Getters
without effect (`GetResolvers`, `GetMonitor`, `GetCapababilities`) and the builders of
`rules.Opts` are not logged. Rule sets and loaders are named by their addresses.

In `utils.go` a Go `string` or `[]byte` is a list of bytes, `uint32` arithmetic is taken
modulo `2 ^ 32`, and a slice expression out of range is a panic, an outcome of its own.
-/

namespace eval

/-- The two options of `StringCmpOpts` that `oo_dns_name.go` writes. -/
structure StringCmpOpts where
  ScalarCaseInsensitive : Bool := false
  PatternCaseInsensitive : Bool := false
deriving DecidableEq, Repr

/-- The evaluation context: `Object` is the address of the event under evaluation
(`ctx.Object` in `module.go`). -/
structure Context where
  Object : Nat
deriving DecidableEq, Repr

/-- A string evaluator: the field it reads (`""` for none), a constant value, the deferred
evaluation closure (`nil` for a constant) and its comparison options. -/
structure StringEvaluator where
  Field : String := ""
  Value : String := ""
  EvalFnc : Option (Context → String) := none
  StringCmpOpts : StringCmpOpts := {}

/-- A string array evaluator, with the fields `oo_dns_name.go` reads and writes. -/
structure StringArrayEvaluator where
  Field : String := ""
  Values : List String := []
  EvalFnc : Option (Context → List String) := none
  StringCmpOpts : StringCmpOpts := {}

/-- A set of constant string values; `oo_dns_name.go` never looks inside it. -/
structure StringValuesEvaluator where
  Values : List String := []

/-- A boolean evaluator: a deferred closure, or a value known at compile time. -/
structure BoolEvaluator where
  EvalFnc : Option (Context → Bool) := none
  Value : Bool := false

/-- Evaluation of a boolean evaluator on a context. -/
def BoolEvaluator.Eval (e : BoolEvaluator) (ctx : Context) : Bool :=
  match e.EvalFnc with
  | some f => f ctx
  | none => e.Value

/-- The assignments `x.StringCmpOpts.ScalarCaseInsensitive = true` and
`x.StringCmpOpts.PatternCaseInsensitive = true`, which every branch of `DNSNameCmp`
performs as a pair. -/
def setCaseInsensitive (o : StringCmpOpts) : StringCmpOpts :=
  { o with ScalarCaseInsensitive := true, PatternCaseInsensitive := true }

/-- What a call of an override leaves behind: the two operands as the override hands them
to the default operator (its writes through the pointers `a` and `b` included) and the
value returned. -/
structure OpResult (α β ρ : Type) where
  a : α
  b : β
  ret : ρ

/-- The entry `StringEquals` of `DNSNameCmp` (`oo_dns_name.go`). The default operator it
delegates to is the parameter `StringEquals`; `ρ` stands for everything that operator hands
back (the `*BoolEvaluator`, the `error`, and what it leaves in `*State`). -/
def DNSNameCmp.StringEquals {Opts State ρ : Type}
    (StringEquals : StringEvaluator → StringEvaluator → Opts → State → ρ)
    (a : StringEvaluator) (b : StringEvaluator) (opts : Opts) (state : State) :
    OpResult StringEvaluator StringEvaluator ρ :=
  if a.Field ≠ "" then
    let a := { a with StringCmpOpts := setCaseInsensitive a.StringCmpOpts }
    ⟨a, b, StringEquals a b opts state⟩
  else if b.Field ≠ "" then
    let b := { b with StringCmpOpts := setCaseInsensitive b.StringCmpOpts }
    ⟨a, b, StringEquals a b opts state⟩
  else
    ⟨a, b, StringEquals a b opts state⟩

/-- The entry `StringValuesContains` of `DNSNameCmp`. -/
def DNSNameCmp.StringValuesContains {Opts State ρ : Type}
    (StringValuesContains : StringEvaluator → StringValuesEvaluator → Opts → State → ρ)
    (a : StringEvaluator) (b : StringValuesEvaluator) (opts : Opts) (state : State) :
    OpResult StringEvaluator StringValuesEvaluator ρ :=
  if a.Field ≠ "" then
    let a := { a with StringCmpOpts := setCaseInsensitive a.StringCmpOpts }
    ⟨a, b, StringValuesContains a b opts state⟩
  else
    ⟨a, b, StringValuesContains a b opts state⟩

/-- The entry `StringArrayContains` of `DNSNameCmp`. -/
def DNSNameCmp.StringArrayContains {Opts State ρ : Type}
    (StringArrayContains : StringEvaluator → StringArrayEvaluator → Opts → State → ρ)
    (a : StringEvaluator) (b : StringArrayEvaluator) (opts : Opts) (state : State) :
    OpResult StringEvaluator StringArrayEvaluator ρ :=
  if a.Field ≠ "" then
    let a := { a with StringCmpOpts := setCaseInsensitive a.StringCmpOpts }
    ⟨a, b, StringArrayContains a b opts state⟩
  else if b.Field ≠ "" then
    let b := { b with StringCmpOpts := setCaseInsensitive b.StringCmpOpts }
    ⟨a, b, StringArrayContains a b opts state⟩
  else
    ⟨a, b, StringArrayContains a b opts state⟩

/-- The entry `StringArrayMatches` of `DNSNameCmp`. -/
def DNSNameCmp.StringArrayMatches {Opts State ρ : Type}
    (StringArrayMatches : StringArrayEvaluator → StringValuesEvaluator → Opts → State → ρ)
    (a : StringArrayEvaluator) (b : StringValuesEvaluator) (opts : Opts) (state : State) :
    OpResult StringArrayEvaluator StringValuesEvaluator ρ :=
  if a.Field ≠ "" then
    let a := { a with StringCmpOpts := setCaseInsensitive a.StringCmpOpts }
    ⟨a, b, StringArrayMatches a b opts state⟩
  else
    ⟨a, b, StringArrayMatches a b opts state⟩

/-- Lower-casing of a string, letter by letter (`strings.ToLower` on ASCII letters; other
characters are left as they are). -/
def toLower (s : String) : String :=
  ⟨s.data.map Char.toLower⟩

/-- Modelled from the spec: the default string equality operator `StringEquals`, whose code
(`eval/operators.go`) is not part of the sources. The spec has a field's override install
"case-insensitive string equality" while "the same operator compares case-sensitively
elsewhere", the comparison being bound "at the field": so the comparison ignores letter
case exactly when an operand that reads a field carries `ScalarCaseInsensitive`, and is
plain string equality otherwise. The evaluator built is a closure unless both operands are
compile-time constants. -/
def StringEquals {Opts State : Type} (a b : StringEvaluator) (_opts : Opts) (_state : State) :
    Except String BoolEvaluator :=
  let ci : Bool := (a.Field != "" && a.StringCmpOpts.ScalarCaseInsensitive) ||
    (b.Field != "" && b.StringCmpOpts.ScalarCaseInsensitive)
  let op : String → String → Bool := fun x y =>
    if ci then toLower x == toLower y else x == y
  match a.EvalFnc, b.EvalFnc with
  | some ea, some eb => .ok { EvalFnc := some (fun ctx => op (ea ctx) (eb ctx)) }
  | none, none => .ok { Value := op a.Value b.Value }
  | some ea, none => .ok { EvalFnc := some (fun ctx => op (ea ctx) b.Value) }
  | none, some eb => .ok { EvalFnc := some (fun ctx => op a.Value (eb ctx)) }

end eval

namespace module

/-- A rule identifier (`rules.RuleID`). -/
abbrev RuleID := String

/-- A policy provider, by name (`rules.PolicyProvider`). -/
abbrev PolicyProvider := String

/-- The address of a `*rules.RuleSet`. -/
abbrev RuleSetRef := Nat

/-- The address of a `*rules.PolicyLoader`. -/
abbrev LoaderRef := Nat

/-- The collection of errors of a `*multierror.Error`; `ErrorOrNil()` is `nil` exactly when
the collection is empty. -/
abbrev MultiError := List String

/-- A Go `error` that is not `nil`, by its message. -/
abbrev Error := String

/-- The approvers computed by `GetApprovers`, per event type. -/
abbrev Approvers := List (String × List String)

/-- The policy report of `rsa.Apply`. -/
abbrev Report := String

/-- An event handed to the module (`sprobe.Event`, `sprobe.CustomEvent`). -/
abbrev Event := String

/-- A rule, with what `module.go` reads of it: `rule.ID` and
`rule.Definition.Policy.Version`. -/
structure Rule where
  ID : RuleID
  Version : String
deriving DecidableEq, Repr

/-- Which variables an `Opts` carries: the copy of `model.SECLVariables` built at the top
of `LoadPolicies`, or `sprobe.SECLVariables`. -/
inductive Variables where
  | probeVariables
  | SECLVariables
deriving DecidableEq, Repr

/-- Which factory the `"process"` state scope of an `Opts` carries: the closure over the
mock `model.Event`, or `ProcessResolver.NewProcessVariables`. -/
inductive StateScopes where
  | modelEvent
  | NewProcessVariables
deriving DecidableEq, Repr

/-- The part of `rules.Opts` that `LoadPolicies` changes between the two rule sets, and the
reserved rule IDs. -/
structure Opts where
  Variables : Variables
  StateScopes : StateScopes
  ReservedRuleIDs : List RuleID
deriving DecidableEq, Repr

/-- One entry of the log: a call on a collaborator of the module, or an atomic access to
one of its two shared words (`reloading`, `currentRuleSet`), with the arguments passed
(and, for constructors, the address returned). -/
inductive Call where
  /-- The call `log.Info(msg)`. -/
  | logInfo (msg : String)
  /-- The call `m.Lock()`. -/
  | lock
  /-- The call `m.Unlock()`. -/
  | unlock
  /-- The call `atomic.StoreUint64(&m.reloading, v)`. -/
  | storeReloading (v : Nat)
  /-- The call `atomic.LoadUint64(&m.reloading)`. -/
  | loadReloading
  /-- The call `sprobe.NewRuleSetApplier(m.config, m.probe)`. -/
  | newRuleSetApplier
  /-- The call `rules.NewRuleSet(model, model.NewEvent, &opts)`, which returned `rs`. -/
  | newRuleSet (opts : Opts) (rs : RuleSetRef)
  /-- The call `m.probe.NewRuleSet(&opts)`, which returned `rs`. -/
  | probeNewRuleSet (opts : Opts) (rs : RuleSetRef)
  /-- The call `rules.NewPolicyLoader(policyProviders)`, which returned `loader`. -/
  | newPolicyLoader (policyProviders : List PolicyProvider) (loader : LoaderRef)
  /-- The call `rs.LoadPolicies(loader)`. -/
  | ruleSetLoadPolicies (rs : RuleSetRef) (loader : LoaderRef)
  /-- The call `seclog.RuleLoadingErrors(msg, errs)`. -/
  | ruleLoadingErrors (msg : String) (errs : MultiError)
  /-- The call `rs.GetApprovers(sprobe.GetCapababilities())`. -/
  | getApprovers (rs : RuleSetRef)
  /-- The call `rs.GetRules()` made by `getPoliciesVersions(rs)`. -/
  | getRules (rs : RuleSetRef)
  /-- The call `m.currentRuleSet.Store(rs)`. -/
  | storeRuleSet (rs : RuleSetRef)
  /-- The call `m.currentRuleSet.Load()`. -/
  | loadRuleSet
  /-- The call `m.rulesLoaded(rs, errs)` of the callback `cb`. -/
  | rulesLoaded (cb : Nat) (rs : RuleSetRef) (errs : MultiError)
  /-- The call `rs.AddListener(m)`. -/
  | addListener (rs : RuleSetRef)
  /-- The call `rsa.Apply(rs, approvers)`. -/
  | rsaApply (rs : RuleSetRef) (approvers : Approvers)
  /-- The call `rs.ListRuleIDs()`. -/
  | listRuleIDs (rs : RuleSetRef)
  /-- The call `m.apiServer.Apply(ruleIDs)`. -/
  | apiServerApply (ruleIDs : List RuleID)
  /-- The call `m.rateLimiter.Apply(ruleIDs)`. -/
  | rateLimiterApply (ruleIDs : List RuleID)
  /-- The call `m.displayReport(report)`. -/
  | displayReport (report : Report)
  /-- The call `monitor.PrepareRuleSetLoadedReport(rs, errs)`. -/
  | prepareRuleSetLoadedReport (rs : RuleSetRef) (errs : MultiError)
  /-- The call `monitor.ReportRuleSetLoaded(report)` for the report prepared from `rs`. -/
  | reportRuleSetLoaded (rs : RuleSetRef) (errs : MultiError)
  /-- The call `m.rateLimiter.Allow(id)`. -/
  | rateLimiterAllow (id : RuleID)
  /-- The call `m.apiServer.SendEvent(rule, event, extTagsCb, service)`. -/
  | apiServerSendEvent (rule : Rule) (event : Event) (extTagsCb : Unit → List String)
      (service : String)
  /-- The call `seclog.Tracef(msg, id)`. -/
  | tracef (msg : String) (id : RuleID)
  /-- The call `seclog.Trace(err)`. -/
  | trace (err : Error)
  /-- The call `m.probe.OnNewDiscarder(rs, event, field, eventType)`. -/
  | onNewDiscarder (rs : RuleSetRef) (event : Event) (field : String) (eventType : String)
  /-- The call `rs.Evaluate(event)`. -/
  | evaluate (rs : RuleSetRef) (event : Event)

/-- The fields of `Module` that `LoadPolicies`, `GetRuleSet`, `EventDiscarderFound` and
`SetRulesetLoadedCallback` read or write. `currentRuleSet` is the `atomic.Value`: `none`
until the first `Store`. `rulesLoaded` is the callback, `none` for `nil`. -/
structure Module where
  currentRuleSet : Option RuleSetRef
  reloading : Nat
  rulesLoaded : Option Nat
  policiesVersions : List String
  policyProviders : List PolicyProvider
deriving DecidableEq, Repr

/-- The module as `NewModule` leaves it: every field above has its zero value. -/
def NewModule : Module :=
  { currentRuleSet := none, reloading := 0, rulesLoaded := none,
    policiesVersions := [], policyProviders := [] }

/-- What the collaborators hand back during one call of `LoadPolicies`. -/
structure Returns where
  /-- The result of `rules.NewRuleSet(model, model.NewEvent, &opts)`. -/
  approverRuleSet : RuleSetRef
  /-- The result of `m.probe.NewRuleSet(&opts)`. -/
  ruleSet : RuleSetRef
  /-- The result of `rules.NewPolicyLoader(policyProviders)`. -/
  loader : LoaderRef
  /-- The result of `approverRuleSet.LoadPolicies(loader)`. -/
  loadErrs : MultiError
  /-- The result of `ruleSet.LoadPolicies(loader)`. -/
  loadApproversErrs : MultiError
  /-- The result of `approverRuleSet.GetApprovers(...)`. -/
  approvers : Except Error Approvers
  /-- The rules of `ruleSet.GetRules()`, in the order the `range` visits them. -/
  rules : List Rule
  /-- The result of `rsa.Apply(ruleSet, approvers)`. -/
  report : Except Error Report
  /-- The result of `ruleSet.ListRuleIDs()`. -/
  ruleIDs : List RuleID
  /-- The result of `sprobe.AllCustomRuleIDs()`. -/
  customRuleIDs : List RuleID

/-- The function `getPoliciesVersions`: the distinct policy versions of the rules, each at
its first occurrence. -/
def getPoliciesVersions (rs : List Rule) : List String :=
  rs.foldl (fun versions rule =>
    if rule.Version ∈ versions then versions else versions ++ [rule.Version]) []

/-- The outcome of a call: the module afterwards, the calls made, and the `error` returned
(`none` for `nil`). -/
structure Outcome where
  m : Module
  log : List Call
  err : Option Error

/-- The body of `LoadPolicies` after its two `defer` statements, up to a `return`. -/
def LoadPolicies.body (x : Returns) (m : Module) (policyProviders : List PolicyProvider) :
    Outcome :=
  let opts : Opts := { Variables := .probeVariables, StateScopes := .modelEvent,
                       ReservedRuleIDs := x.customRuleIDs }
  let log := [Call.newRuleSetApplier, .newRuleSet opts x.approverRuleSet]
  let opts := { opts with Variables := .SECLVariables, StateScopes := .NewProcessVariables }
  let log := log ++ [.probeNewRuleSet opts x.ruleSet,
    .newPolicyLoader policyProviders x.loader,
    .ruleSetLoadPolicies x.approverRuleSet x.loader,
    .ruleSetLoadPolicies x.ruleSet x.loader]
  let loadErrs := x.loadErrs
  let loadApproversErrs := x.loadApproversErrs
  let log := log ++
    (if loadErrs ≠ [] then
      [.ruleLoadingErrors "error while loading policies: %+v" loadErrs]
    else if loadApproversErrs ≠ [] then
      [.ruleLoadingErrors "error while loading policies for Approvers: %+v" loadApproversErrs]
    else [])
  let log := log ++ [.getApprovers x.approverRuleSet]
  match x.approvers with
  | .error err => ⟨m, log, some err⟩
  | .ok approvers =>
    let m := { m with policiesVersions := getPoliciesVersions x.rules }
    let m := { m with policyProviders := policyProviders }
    let m := { m with currentRuleSet := some x.ruleSet }
    let log := log ++ [.getRules x.ruleSet, .storeRuleSet x.ruleSet]
    let log := log ++
      (match m.rulesLoaded with
       | some cb => [.rulesLoaded cb x.ruleSet loadErrs]
       | none => [])
    let log := log ++ [.addListener x.ruleSet, .rsaApply x.ruleSet approvers]
    match x.report with
    | .error err => ⟨m, log, some err⟩
    | .ok report =>
      let ruleIDs : List RuleID := []
      let ruleIDs := ruleIDs ++ x.ruleIDs
      let ruleIDs := ruleIDs ++ x.customRuleIDs
      let log := log ++ [.listRuleIDs x.ruleSet, .apiServerApply ruleIDs,
        .rateLimiterApply ruleIDs, .displayReport report,
        .prepareRuleSetLoadedReport x.ruleSet loadErrs,
        .reportRuleSetLoaded x.ruleSet loadErrs]
      ⟨m, log, none⟩

/-- The method `Module.LoadPolicies`: the lock and the `reloading` flag are taken, the body
runs, and on its return the deferred calls run, last registered first. -/
def LoadPolicies (x : Returns) (m : Module) (policyProviders : List PolicyProvider) :
    Outcome :=
  let log := [Call.logInfo "load policies", .lock, .storeReloading 1]
  let m := { m with reloading := 1 }
  let r := LoadPolicies.body x m policyProviders
  ⟨{ r.m with reloading := 0 }, log ++ r.log ++ [.storeReloading 0, .unlock], r.err⟩

/-- The method `Module.GetRuleSet`: one `Load` of the current rule set. -/
def GetRuleSet (m : Module) : Option RuleSetRef × List Call :=
  (m.currentRuleSet, [.loadRuleSet])

/-- The method `Module.HandleEvent`. -/
def HandleEvent (m : Module) (event : Event) : List Call :=
  match GetRuleSet m with
  | (some ruleSet, log) => log ++ [.evaluate ruleSet event]
  | (none, log) => log

/-- The method `Module.EventDiscarderFound`; `err` is what `OnNewDiscarder` returns. -/
def EventDiscarderFound (err : Option Error) (m : Module) (rs : RuleSetRef) (event : Event)
    (field : String) (eventType : String) : List Call :=
  if m.reloading = 1 then
    [.loadReloading]
  else
    [.loadReloading, .onNewDiscarder rs event field eventType] ++
      (match err with
       | some e => [.trace e]
       | none => [])

/-- The method `Module.SendEvent`; `allowed` is what `rateLimiter.Allow(rule.ID)` returns. -/
def SendEvent (allowed : Bool) (rule : Rule) (event : Event) (extTagsCb : Unit → List String)
    (service : String) : List Call :=
  [.rateLimiterAllow rule.ID] ++
    (if allowed then
      [.apiServerSendEvent rule event extTagsCb service]
    else
      [.tracef "Event on rule %s was dropped due to rate limiting" rule.ID])

/-- The method `Module.SetRulesetLoadedCallback`. -/
def SetRulesetLoadedCallback (m : Module) (cb : Option Nat) : Module :=
  { m with rulesLoaded := cb }

/-- The value of the `reloading` flag after the calls of a log, from the value `v` before
them: the value of the last `StoreUint64`. -/
def reloadingAfter (v : Nat) : List Call → Nat
  | [] => v
  | .storeReloading w :: cs => reloadingAfter w cs
  | _ :: cs => reloadingAfter v cs

/-- The rule set held by `currentRuleSet` after the calls of a log, from the content `v`
before them: the argument of the last `Store`. -/
def currentAfter (v : Option RuleSetRef) : List Call → Option RuleSetRef
  | [] => v
  | .storeRuleSet rs :: cs => currentAfter (some rs) cs
  | _ :: cs => currentAfter v cs

/-- Whether a call changes the state of the rule set `rs`: loading policies into it, or
registering a listener on it. -/
def Call.mutates (rs : RuleSetRef) : Call → Bool
  | .ruleSetLoadPolicies r _ => r == rs
  | .addListener r => r == rs
  | _ => false

/-- Whether a call builds a rule set. -/
def Call.buildsRuleSet : Call → Bool
  | .newRuleSet _ _ => true
  | .probeNewRuleSet _ _ => true
  | _ => false

/-- Whether a call is `m.currentRuleSet.Store(rs)`. -/
def Call.isStoreRuleSet (rs : RuleSetRef) : Call → Bool
  | .storeRuleSet r => r == rs
  | _ => false

/-- Whether a call is `atomic.StoreUint64(&m.reloading, _)`. -/
def Call.isStoreReloading : Call → Bool
  | .storeReloading _ => true
  | _ => false

/-- Whether a call is `m.currentRuleSet.Load()`. -/
def Call.isLoadRuleSet : Call → Bool
  | .loadRuleSet => true
  | _ => false

/-- Whether a call is `rs.Evaluate(event)`. -/
def Call.isEvaluate : Call → Bool
  | .evaluate _ _ => true
  | _ => false

/-- Whether a call is `m.rateLimiter.Allow(id)`. -/
def Call.isRateLimiterAllow : Call → Bool
  | .rateLimiterAllow _ => true
  | _ => false

/-- Whether a call is `m.apiServer.SendEvent(...)`. -/
def Call.isAPIServerSendEvent : Call → Bool
  | .apiServerSendEvent _ _ _ _ => true
  | _ => false

/-- Whether a call is `m.probe.OnNewDiscarder(...)`. -/
def Call.isOnNewDiscarder : Call → Bool
  | .onNewDiscarder _ _ _ _ => true
  | _ => false

/-- Whether a call is `rules.NewPolicyLoader(...)`. -/
def Call.isNewPolicyLoader : Call → Bool
  | .newPolicyLoader _ _ => true
  | _ => false

/-- Whether a call is `rs.LoadPolicies(loader)` on some rule set. -/
def Call.isRuleSetLoadPolicies : Call → Bool
  | .ruleSetLoadPolicies _ _ => true
  | _ => false

/-- Whether a call is `rs.GetApprovers(...)` on some rule set. -/
def Call.isGetApprovers : Call → Bool
  | .getApprovers _ => true
  | _ => false

/-- Whether a call is `m.apiServer.Apply(...)`. -/
def Call.isAPIServerApply : Call → Bool
  | .apiServerApply _ => true
  | _ => false

/-- Whether a call is `m.rateLimiter.Apply(...)`. -/
def Call.isRateLimiterApply : Call → Bool
  | .rateLimiterApply _ => true
  | _ => false

/-- Whether a call publishes a rule set (`Store`), registers the module as its listener
(`AddListener`) or applies it (`rsa.Apply`). -/
def Call.publishes : Call → Bool
  | .storeRuleSet _ => true
  | .addListener _ => true
  | .rsaApply _ _ => true
  | _ => false

/-- The calls of a log made before the first call that satisfies `p` (the whole log when
there is none). -/
def callsBefore (p : Call → Bool) (log : List Call) : List Call :=
  log.takeWhile (fun c => !p c)

/-- The calls of a log made after the first call that satisfies `p` (none when there is no
such call). -/
def callsAfter (p : Call → Bool) (log : List Call) : List Call :=
  (log.dropWhile (fun c => !p c)).drop 1

/-- What the collaborators return in a pass where both rule sets load two rules without
error, `GetApprovers` and `rsa.Apply` succeed: the approver rule set is at address 1, the
standard rule set at address 2, the loader at address 3. -/
def returnsOK : Returns :=
  { approverRuleSet := 1, ruleSet := 2, loader := 3, loadErrs := [], loadApproversErrs := [],
    approvers := .ok [("open", ["/etc/shadow"])],
    rules := [⟨"r1", "1.0"⟩, ⟨"r2", "1.0"⟩], report := .ok "report",
    ruleIDs := ["r1", "r2"], customRuleIDs := ["abnormal_path"] }

/-- What the collaborators return in a pass where no policy loads: both loads report an
error, the rule set built (at address 2) has no rule, `GetApprovers` and `rsa.Apply`
succeed. -/
def returnsNoPolicy : Returns :=
  { approverRuleSet := 1, ruleSet := 2, loader := 3, loadErrs := ["no policy"],
    loadApproversErrs := ["no policy"], approvers := .ok [], rules := [],
    report := .ok "report", ruleIDs := [], customRuleIDs := ["abnormal_path"] }

/-- An operation on the module: a call of one of its methods, with what the collaborators
return during the call. -/
inductive Op where
  /-- A call `m.LoadPolicies(policyProviders)`. -/
  | LoadPolicies (x : Returns) (policyProviders : List PolicyProvider)
  /-- A call `m.SetRulesetLoadedCallback(cb)`. -/
  | SetRulesetLoadedCallback (cb : Option Nat)
  /-- A call `m.HandleEvent(event)`. -/
  | HandleEvent (event : Event)
  /-- A call `m.EventDiscarderFound(rs, event, field, eventType)`. -/
  | EventDiscarderFound (err : Option Error) (rs : RuleSetRef) (event : Event)
      (field : String) (eventType : String)
  /-- A call `m.SendEvent(rule, event, extTagsCb, service)`. -/
  | SendEvent (allowed : Bool) (rule : Rule) (event : Event) (extTagsCb : Unit → List String)
      (service : String)

/-- One operation: the module afterwards and the calls made. -/
def step (m : Module) : Op → Module × List Call
  | .LoadPolicies x policyProviders =>
    ((LoadPolicies x m policyProviders).m, (LoadPolicies x m policyProviders).log)
  | .SetRulesetLoadedCallback cb => (SetRulesetLoadedCallback m cb, [])
  | .HandleEvent event => (m, HandleEvent m event)
  | .EventDiscarderFound err rs event field eventType =>
    (m, EventDiscarderFound err m rs event field eventType)
  | .SendEvent allowed rule event extTagsCb service =>
    (m, SendEvent allowed rule event extTagsCb service)

/-- A run of the module: operations one after the other; the module at the end and the
whole log. -/
def run (m : Module) : List Op → Module × List Call
  | [] => (m, [])
  | op :: ops => ((run (step m op).1 ops).1, (step m op).2 ++ (run (step m op).1 ops).2)

end module

namespace model

/-- A byte. -/
abbrev Byte := Fin 256

/-- A Go `string` or `[]byte`: a sequence of bytes. -/
abbrev Bytes := List Byte

/-- The errors of package `model` that `utils.go` returns. -/
inductive Error where
  | ErrNotEnoughData
  | ErrNonPrintable
  | ErrStringArrayOverflow
deriving DecidableEq, Repr

/-- How a call ends: it returns a value and an `error` (`none` for `nil`), or it panics
(a slice expression out of range). `fuel` is not an outcome of the Go code: it marks that
the bound on the iterations of a loop of the model was reached. -/
inductive Result (α : Type) where
  | ret (v : α) (err : Option Error)
  | panic
  | fuel
deriving DecidableEq, Repr

/-- The slice expression `data[lo:hi]`: it panics unless `lo ≤ hi ≤ cap(data)`. The
capacity is taken to be the length; no slice expression of `utils.go` is evaluated with
`hi` above the length. -/
def slice (data : Bytes) (lo hi : Nat) : Option Bytes :=
  if lo ≤ hi ∧ hi ≤ data.length then some ((data.take hi).drop lo) else none

/-- The expression `bytes.SplitN(d, []byte{0}, 2)[0]`: the bytes of `d` before its first
NUL byte, all of `d` when it has none. -/
def beforeNUL (d : Bytes) : Bytes :=
  d.takeWhile (fun b => b ≠ 0)

/-- The byte orders of `encoding/binary`; `ByteOrder` of package `model`, set outside of
`utils.go`, is one of them. -/
inductive ByteOrder where
  | LittleEndian
  | BigEndian
deriving DecidableEq, Repr

/-- The method `ByteOrder.Uint32(b)`: it reads the first four bytes and panics (`none`) on
fewer. -/
def ByteOrder.Uint32 : ByteOrder → Bytes → Option Nat
  | .LittleEndian, b0 :: b1 :: b2 :: b3 :: _ =>
    some (b0.val + b1.val * 2 ^ 8 + b2.val * 2 ^ 16 + b3.val * 2 ^ 24)
  | .BigEndian, b0 :: b1 :: b2 :: b3 :: _ =>
    some (b3.val + b2.val * 2 ^ 8 + b1.val * 2 ^ 16 + b0.val * 2 ^ 24)
  | _, _ => none

/-- The byte of a number, modulo 256. -/
def toByte (n : Nat) : Byte :=
  ⟨n % 256, Nat.mod_lt _ (by decide)⟩

/-- The method `ByteOrder.PutUint32`, as the four bytes written for the `uint32` `v`. -/
def ByteOrder.PutUint32 : ByteOrder → Nat → Bytes
  | .LittleEndian, v => [toByte v, toByte (v / 2 ^ 8), toByte (v / 2 ^ 16), toByte (v / 2 ^ 24)]
  | .BigEndian, v => [toByte (v / 2 ^ 24), toByte (v / 2 ^ 16), toByte (v / 2 ^ 8), toByte v]

/-- The function `UnmarshalString`. `size` is a Go `int`: a negative one passes the length
test and makes `data[:size]` panic. -/
def UnmarshalString (data : Bytes) (size : Int) : Result Bytes :=
  if (data.length : Int) < size then
    .ret [] (some .ErrNotEnoughData)
  else if size < 0 then
    .panic
  else
    match slice data 0 size.toNat with
    | none => .panic
    | some d => .ret (beforeNUL d) none

/-- The function `UnmarshalPrintableString`. `IsPrintable`, defined outside of `utils.go`,
is a parameter. -/
def UnmarshalPrintableString (IsPrintable : Bytes → Bool) (data : Bytes) (size : Int) :
    Result Bytes :=
  if (data.length : Int) < size then
    .ret [] (some .ErrNotEnoughData)
  else
    match UnmarshalString data size with
    | .panic => .panic
    | .fuel => .fuel
    | .ret _ (some err) => .ret [] (some err)
    | .ret str none =>
      if !IsPrintable str then
        .ret [] (some .ErrNonPrintable)
      else
        .ret str none

/-- The loop of `UnmarshalStringArray`, from the index `i` with the strings `result`
decoded so far; `length`, `i` and `n` are `uint32`, so sums are taken modulo `2 ^ 32`. The
first argument bounds the number of iterations. -/
def UnmarshalStringArray.loop (bo : ByteOrder) (data : Bytes) (length : Nat) :
    Nat → Nat → List Bytes → Result (List Bytes)
  | 0, _, _ => .fuel
  | fuel + 1, i, result =>
    if i < length then
      if (i + 4) % 2 ^ 32 ≥ length then
        .ret result (some .ErrStringArrayOverflow)
      else
        -- size of arg
        match (slice data i ((i + 4) % 2 ^ 32)).bind bo.Uint32 with
        | none => .panic
        | some n =>
          if n = 0 then
            .ret result none
          else
            let i := (i + 4) % 2 ^ 32
            if (i + n) % 2 ^ 32 > length then
              -- truncated
              match slice data i ((length + 2 ^ 32 - 1) % 2 ^ 32) with
              | none => .panic
              | some d => .ret (result ++ [beforeNUL d]) (some .ErrStringArrayOverflow)
            else
              match slice data i ((i + n) % 2 ^ 32) with
              | none => .panic
              | some d => loop bo data length fuel ((i + n) % 2 ^ 32) (result ++ [beforeNUL d])
    else
      .ret result none

/-- The function `UnmarshalStringArray`. Every iteration that goes on moves `i` forward,
so the loop makes at most `len(data)` iterations. -/
def UnmarshalStringArray (bo : ByteOrder) (data : Bytes) : Result (List Bytes) :=
  UnmarshalStringArray.loop bo data (data.length % 2 ^ 32) (data.length + 1) 0 []

/-- The encoding that `UnmarshalStringArray` reads: for each string in order, its length as
a 4-byte `uint32` in the byte order, then its bytes. -/
def encodeStringArray (bo : ByteOrder) (l : List Bytes) : Bytes :=
  l.flatMap (fun s => bo.PutUint32 s.length ++ s)

/-- A regular expression of the form used by `containerIDPattern`: a character class, a
repetition `r{n}`, a capturing group. -/
inductive Regexp where
  | charClass (p : Byte → Bool)
  | rep (r : Regexp) (n : Nat)
  | capture (r : Regexp)

/-- The repetition of a matcher `n` times in a row. -/
def matchRep (f : Bytes → Option Bytes) : Nat → Bytes → Option Bytes
  | 0, s => some s
  | n + 1, s => (f s).bind (matchRep f n)

/-- The match of a regular expression at the start of the input: what is left of the input
after the match, `none` when there is no match. -/
def Regexp.matchStart : Regexp → Bytes → Option Bytes
  | .charClass p, b :: s => if p b then some s else none
  | .charClass _, [] => none
  | .rep r n, s => matchRep r.matchStart n s
  | .capture r, s => r.matchStart s

/-- The method `Regexp.FindString`: the text of the leftmost match, `""` when there is
none. -/
def Regexp.FindString (re : Regexp) : Bytes → Bytes
  | [] => []
  | b :: s =>
    match re.matchStart (b :: s) with
    | some rest => (b :: s).take ((b :: s).length - rest.length)
    | none => re.FindString s

/-- The class `[[:xdigit:]]`: the bytes `0-9`, `A-F`, `a-f`. -/
def isXDigit (b : Byte) : Bool :=
  (48 ≤ b.val && b.val ≤ 57) || (65 ≤ b.val && b.val ≤ 70) || (97 ≤ b.val && b.val ≤ 102)

/-- The constant `sha256.Size`. -/
def sha256Size : Nat := 32

/-- The pattern `containerIDPattern`, the expression `([[:xdigit:]]{64})`. -/
def containerIDPattern : Regexp :=
  .capture (.rep (.charClass isXDigit) (sha256Size * 2))

/-- The function `FindContainerID`. -/
def FindContainerID (s : Bytes) : Bytes :=
  containerIDPattern.FindString s


/-- Whether the 64 bytes of `s` from position `i` on exist and are all hexadecimal digits. -/
@[reducible]
def isContainerIDAt (s : Bytes) (i : Nat) : Prop :=
  i + 64 ≤ s.length ∧ ∀ b ∈ (s.drop i).take 64, isXDigit b = true

end model

namespace module

/-- Whether a call reports a loaded rule set together with a collection of load errors: the
`rulesLoaded` callback, `PrepareRuleSetLoadedReport`, `ReportRuleSetLoaded`. -/
def Call.reportsLoad : Call → Bool
  | .rulesLoaded _ _ _ => true
  | .prepareRuleSetLoadedReport _ _ => true
  | .reportRuleSetLoaded _ _ => true
  | _ => false

/-- What the collaborators return in a pass where the approver rule set (at address 1)
fails to load the rule `r2` and the standard rule set (at address 2) loads both rules
without error; `GetApprovers` and `rsa.Apply` succeed. -/
def returnsApproverError : Returns :=
  { approverRuleSet := 1, ruleSet := 2, loader := 3,
    loadErrs := ["rule r2: unknown variable"], loadApproversErrs := [],
    approvers := .ok [("open", ["/etc/shadow"])],
    rules := [⟨"r1", "1.0"⟩, ⟨"r2", "1.0"⟩], report := .ok "report",
    ruleIDs := ["r1", "r2"], customRuleIDs := ["abnormal_path"] }

/-- `EventDiscarderFound` on the goroutine of the events while another goroutine makes the
calls `lp` (those of a `LoadPolicies`): `EventDiscarderFound` takes no lock, so its read of
the flag falls after some number `p` of the calls of `lp`, and what it does after the read
(the forward to `OnNewDiscarder`, when the flag read allows it) after `q` of them, `q` not
before `p`. The log is that of both goroutines, in the order the calls happen. -/
def EventDiscarderFound.during (lp : List Call) (p q : Nat) (err : Option Error) (m : Module)
    (rs : RuleSetRef) (event : Event) (field : String) (eventType : String) : List Call :=
  let edf := EventDiscarderFound err
    { m with reloading := reloadingAfter m.reloading (lp.take p) } rs event field eventType
  lp.take p ++ edf.take 1 ++ (lp.drop p).take (q - p) ++ edf.drop 1 ++
    (lp.drop p).drop (q - p)

/-- Whether some call of a log is an `OnNewDiscarder` made while the `reloading` flag is 1,
`v` being the flag before the log. -/
def pushedWhileReloading (v : Nat) : List Call → Bool
  | [] => false
  | .storeReloading w :: cs => pushedWhileReloading w cs
  | .onNewDiscarder _ _ _ _ :: cs => v == 1 || pushedWhileReloading v cs
  | _ :: cs => pushedWhileReloading v cs

/-- An event type (`eval.EventType`). -/
abbrev EventType := String

/-- An event category (`model.EventCategory`). -/
abbrev EventCategory := String

/-- The switches of `sconfig.Config` that `getEventTypeEnabled` reads. -/
structure Config where
  FIMEnabled : Bool
  NetworkEnabled : Bool
  RuntimeEnabled : Bool
deriving DecidableEq, Repr

/-- The declarations of package `model` that `getEventTypeEnabled` uses and that are not
part of the sources: the map returned by `GetEventTypePerCategory()`, as the list of its
entries, the list returned by `GetAllCategories()`, and the constants `FIMCategory` and
`NetworkCategory`. -/
structure Categories where
  GetEventTypePerCategory : List (EventCategory × List EventType)
  GetAllCategories : List EventCategory
  FIMCategory : EventCategory
  NetworkCategory : EventCategory
deriving DecidableEq, Repr

/-- The loop `for _, eventType := range eventTypes { enabled[eventType] = true }` over the
map `enabled`, kept as the list of its writes, last write first; `List.lookup` reads it. -/
def enableAll (enabled : List (EventType × Bool)) (eventTypes : List EventType) :
    List (EventType × Bool) :=
  eventTypes.foldl (fun enabled eventType => (eventType, true) :: enabled) enabled

/-- The method `Module.getEventTypeEnabled`. -/
def getEventTypeEnabled (config : Config) (cats : Categories) : List (EventType × Bool) :=
  let enabled : List (EventType × Bool) := []
  let categories := cats.GetEventTypePerCategory
  let enabled :=
    if config.FIMEnabled then
      match categories.lookup cats.FIMCategory with
      | some eventTypes => enableAll enabled eventTypes
      | none => enabled
    else enabled
  let enabled :=
    if config.NetworkEnabled then
      match categories.lookup cats.NetworkCategory with
      | some eventTypes => enableAll enabled eventTypes
      | none => enabled
    else enabled
  let enabled :=
    if config.RuntimeEnabled then
      -- everything but FIM
      cats.GetAllCategories.foldl (fun enabled category =>
        if category == cats.FIMCategory || category == cats.NetworkCategory then
          enabled
        else
          match categories.lookup category with
          | some eventTypes => enableAll enabled eventTypes
          | none => enabled) enabled
    else enabled
  enabled

/-- Categories and event types in the manner of package `model`: file, process, kernel and
network activity. -/
def exampleCategories : Categories :=
  { GetEventTypePerCategory :=
      [("File Activity", ["open", "chmod"]), ("Process Activity", ["exec"]),
       ("Kernel Activity", ["bpf"]), ("Network Activity", ["dns"])],
    GetAllCategories :=
      ["File Activity", "Process Activity", "Kernel Activity", "Network Activity"],
    FIMCategory := "File Activity",
    NetworkCategory := "Network Activity" }

end module

namespace module

/-- The flag after two logs in a row. -/
theorem reloadingAfter_append (v : Nat) (l l' : List Call) :
    reloadingAfter v (l ++ l') = reloadingAfter (reloadingAfter v l) l' := by
  induction l generalizing v with
  | nil => rfl
  | cons c cs ih => cases c <;> simp [reloadingAfter, ih]

/-- The current rule set after two logs in a row. -/
theorem currentAfter_append (v : Option RuleSetRef) (l l' : List Call) :
    currentAfter v (l ++ l') = currentAfter (currentAfter v l) l' := by
  induction l generalizing v with
  | nil => rfl
  | cons c cs ih => cases c <;> simp [currentAfter, ih]

/-- A log without a `StoreUint64` leaves the flag as it is. -/
theorem reloadingAfter_of_no_store (v : Nat) (l : List Call)
    (h : l.all (fun c => !c.isStoreReloading) = true) : reloadingAfter v l = v := by
  induction l generalizing v with
  | nil => rfl
  | cons c cs ih =>
    rw [List.all_cons, Bool.and_eq_true] at h
    cases c with
    | storeReloading w => simp [Call.isStoreReloading] at h
    | _ => exact ih v h.2

/-- A log without a `Store` leaves the current rule set as it is. -/
theorem currentAfter_of_no_store (v : Option RuleSetRef) (l : List Call)
    (h : ∀ c ∈ l, ∀ rs, c ≠ .storeRuleSet rs) : currentAfter v l = v := by
  induction l generalizing v with
  | nil => rfl
  | cons c cs ih =>
    have hcs : ∀ c ∈ cs, ∀ rs, c ≠ .storeRuleSet rs :=
      fun c' hc' => h c' (List.mem_cons_of_mem _ hc')
    cases c with
    | storeRuleSet rs => exact absurd rfl (h _ (List.mem_cons_self _ _) rs)
    | _ => exact ih v hcs

/-- When every `StoreUint64` of a log writes 0 or 1 and the flag starts at 0 or 1, it is 0
or 1 afterwards. -/
theorem reloadingAfter_le_one (v : Nat) (l : List Call) (hv : v ≤ 1)
    (h : ∀ c ∈ l, ∀ w, c = .storeReloading w → w ≤ 1) : reloadingAfter v l ≤ 1 := by
  induction l generalizing v with
  | nil => exact hv
  | cons c cs ih =>
    have hcs : ∀ c ∈ cs, ∀ w, c = .storeReloading w → w ≤ 1 :=
      fun c' hc' => h c' (List.mem_cons_of_mem _ hc')
    cases c with
    | storeReloading w =>
      exact ih w (h _ (List.mem_cons_self _ _) w rfl) hcs
    | _ => exact ih v hv hcs

/-- The body of `LoadPolicies` never writes the `reloading` flag. -/
theorem body_no_storeReloading (x : Returns) (m : Module) (ps : List PolicyProvider) :
    (LoadPolicies.body x m ps).log.all (fun c => !c.isStoreReloading) = true := by
  unfold LoadPolicies.body
  rcases x.approvers with e | a <;> rcases x.report with e' | r <;>
    rcases m.rulesLoaded with _ | cb <;> simp only [] <;>
    split_ifs <;> simp [Call.isStoreReloading]

/-- The rule set that `LoadPolicies` leaves as the current one is the argument of the last
`Store` of its log, or the one before the call when it made no `Store`. -/
theorem LoadPolicies_current (x : Returns) (m : Module) (ps : List PolicyProvider) :
    (LoadPolicies x m ps).m.currentRuleSet =
      currentAfter m.currentRuleSet (LoadPolicies x m ps).log := by
  unfold LoadPolicies LoadPolicies.body
  rcases x.approvers with e | a <;> rcases x.report with e' | r <;>
    rcases m.rulesLoaded with _ | cb <;> simp only [] <;>
    split_ifs <;> simp [currentAfter]

/-- One operation leaves as the current rule set the argument of its last `Store`. -/
theorem step_current (m : Module) (op : Op) :
    (step m op).1.currentRuleSet = currentAfter m.currentRuleSet (step m op).2 := by
  cases op with
  | LoadPolicies x ps => exact LoadPolicies_current x m ps
  | SetRulesetLoadedCallback cb => rfl
  | HandleEvent event =>
    simp only [step, HandleEvent, GetRuleSet]
    cases m.currentRuleSet <;> rfl
  | EventDiscarderFound err rs event field eventType =>
    simp only [step, EventDiscarderFound]
    split_ifs
    · rfl
    · cases err <;> rfl
  | SendEvent allowed rule event extTagsCb service =>
    simp only [step, SendEvent]
    cases allowed <;> rfl

/-- A run leaves as the current rule set the argument of the last `Store` of its log. -/
theorem run_current (m : Module) (ops : List Op) :
    (run m ops).1.currentRuleSet = currentAfter m.currentRuleSet (run m ops).2 := by
  induction ops generalizing m with
  | nil => rfl
  | cons op ops ih =>
    simp only [run]
    rw [currentAfter_append, ← step_current, ih]

/-- The current rule set after a log that ends with a `Store` of `rs` followed by calls
that are no `Store`. -/
theorem currentAfter_last_store (v : Option RuleSetRef) (pre post : List Call)
    (rs : RuleSetRef) (h : ∀ c ∈ post, ∀ r, c ≠ .storeRuleSet r) :
    currentAfter v (pre ++ .storeRuleSet rs :: post) = some rs := by
  rw [currentAfter_append]
  show currentAfter (some rs) post = some rs
  exact currentAfter_of_no_store _ _ h

/-- The log of `LoadPolicies`: three calls, the log of the body, the two deferred calls. -/
theorem LoadPolicies_log (x : Returns) (m : Module) (ps : List PolicyProvider) :
    (LoadPolicies x m ps).log =
      [.logInfo "load policies", .lock, .storeReloading 1] ++
        (LoadPolicies.body x { m with reloading := 1 } ps).log ++
        [.storeReloading 0, .unlock] := rfl

/-- Every `StoreUint64` of one operation writes 0 or 1. -/
theorem step_stores_le_one (m : Module) (op : Op) :
    ∀ c ∈ (step m op).2, ∀ w, c = .storeReloading w → w ≤ 1 := by
  intro c hc w hw
  subst hw
  cases op with
  | LoadPolicies x ps =>
    simp only [step, LoadPolicies_log, List.mem_append] at hc
    rcases hc with (hc | hc) | hc
    · simp at hc; omega
    · have h := List.all_eq_true.mp (body_no_storeReloading x { m with reloading := 1 } ps) _ hc
      simp [Call.isStoreReloading] at h
    · simp at hc; omega
  | SetRulesetLoadedCallback cb => simp [step] at hc
  | HandleEvent event =>
    simp only [step, HandleEvent, GetRuleSet] at hc
    rcases hm : m.currentRuleSet with _ | r <;> rw [hm] at hc <;> simp at hc
  | EventDiscarderFound err rs event field eventType =>
    simp only [step, EventDiscarderFound] at hc
    split_ifs at hc
    · simp at hc
    · cases err <;> simp at hc
  | SendEvent allowed rule event extTagsCb service =>
    simp only [step, SendEvent] at hc
    cases allowed <;> simp at hc

/-- Every `StoreUint64` of a run writes 0 or 1. -/
theorem run_stores_le_one (m : Module) (ops : List Op) :
    ∀ c ∈ (run m ops).2, ∀ w, c = .storeReloading w → w ≤ 1 := by
  induction ops generalizing m with
  | nil => intro c hc; simp [run] at hc
  | cons op ops ih =>
    intro c hc w hw
    simp only [run, List.mem_append] at hc
    rcases hc with hc | hc
    · exact step_stores_le_one m op c hc w hw
    · exact ih _ c hc w hw

/-- While the body of `LoadPolicies` runs, the flag is 1: after the first three calls and
any number of the calls that follow, short of the two deferred ones. -/
theorem LoadPolicies_reloading_during (x : Returns) (m : Module) (ps : List PolicyProvider)
    (p : Nat) (h3 : 3 ≤ p) (hp : p + 2 ≤ (LoadPolicies x m ps).log.length) :
    reloadingAfter m.reloading ((LoadPolicies x m ps).log.take p) = 1 := by
  rw [LoadPolicies_log] at hp ⊢
  have hb := body_no_storeReloading x { m with reloading := 1 } ps
  generalize (LoadPolicies.body x { m with reloading := 1 } ps).log = body at hp hb ⊢
  simp only [List.length_append, List.length_cons, List.length_nil] at hp
  obtain ⟨j, rfl⟩ : ∃ j, p = 3 + j := ⟨p - 3, by omega⟩
  have htake : (([Call.logInfo "load policies", .lock, .storeReloading 1] ++ body) ++
      [Call.storeReloading 0, .unlock]).take (3 + j) =
      [Call.logInfo "load policies", .lock, .storeReloading 1] ++ body.take j := by
    rw [List.take_append_of_le_length (by simp; omega)]
    rw [show 3 + j = ([Call.logInfo "load policies", .lock, .storeReloading 1]).length + j
      from rfl, List.take_append]
  rw [htake, reloadingAfter_append]
  show reloadingAfter 1 (body.take j) = 1
  apply reloadingAfter_of_no_store
  rw [List.all_eq_true] at hb ⊢
  exact fun c hc => hb c (List.mem_of_mem_take hc)

/-- After `LoadPolicies` the flag is 0, in the module and as the last value written. -/
theorem LoadPolicies_reloading_after (x : Returns) (m : Module) (ps : List PolicyProvider) :
    (LoadPolicies x m ps).m.reloading = 0 ∧
      reloadingAfter m.reloading (LoadPolicies x m ps).log = 0 := by
  refine ⟨rfl, ?_⟩
  rw [LoadPolicies_log, reloadingAfter_append]
  rfl

end module

namespace eval

/-- C1. Case-override law for `DNSNameCmp.StringEquals`: when `a` reads a field and yields
one string on the context, `b` is a scalar constant holding another string, and the two
differ only in letter case, the evaluator built by `DNSNameCmp.StringEquals` evaluates to
true, while the evaluator built by the default `StringEquals` on the same operands, with
the case-insensitive option not set, evaluates to false. -/
theorem DNSNameCmp_StringEquals_case_override {Opts State : Type}
    (a b : StringEvaluator) (f : Context → String) (opts : Opts) (state : State)
    (ctx : Context)
    (ha : a.Field ≠ "") (hf : a.EvalFnc = some f)
    (hb : b.Field = "") (hbf : b.EvalFnc = none)
    (hcase : toLower (f ctx) = toLower b.Value) (hne : f ctx ≠ b.Value)
    (hopt : a.StringCmpOpts.ScalarCaseInsensitive = false) :
    (∃ e, (DNSNameCmp.StringEquals StringEquals a b opts state).ret = .ok e ∧
        e.Eval ctx = true) ∧
    (∃ e, StringEquals a b opts state = .ok e ∧ e.Eval ctx = false) := by
  constructor
  · refine ⟨{ EvalFnc := some (fun c => toLower (f c) == toLower b.Value) }, ?_, ?_⟩
    · simp [DNSNameCmp.StringEquals, StringEquals, ha, hf, hb, hbf, setCaseInsensitive]
    · simp [BoolEvaluator.Eval, hcase]
  · refine ⟨{ EvalFnc := some (fun c => f c == b.Value) }, ?_, ?_⟩
    · simp [StringEquals, hf, hb, hbf, hopt]
    · simp [BoolEvaluator.Eval, hne]

/-- C1, at the field `dns.question.name` reading `"ABC"` against the constant `"abc"`. -/
theorem DNSNameCmp_StringEquals_case_override_witness :
    (∃ e, (DNSNameCmp.StringEquals StringEquals
          { Field := "dns.question.name", EvalFnc := some (fun _ => "ABC") }
          { Value := "abc" } () ()).ret = .ok e ∧ e.Eval ⟨0⟩ = true) ∧
    (∃ e, @StringEquals Unit Unit
          { Field := "dns.question.name", EvalFnc := some (fun _ => "ABC") }
          { Value := "abc" } () () = .ok e ∧ e.Eval ⟨0⟩ = false) :=
  DNSNameCmp_StringEquals_case_override
    { Field := "dns.question.name", EvalFnc := some (fun _ => "ABC") } { Value := "abc" }
    (fun _ => "ABC") () () ⟨0⟩ (by decide) rfl rfl rfl (by decide) (by decide) rfl

/-- C2. The `DNSNameCmp` override binds at the field only. Each of its four operators
returns what the default operator returns on the operands as the override leaves them;
when no operand it examines has a non-empty `Field`, both operands are left as they were,
so the result is the default operator's on the same arguments; when `a.Field` is not empty
the two case-insensitive options are set on `a` and `b` is left alone; when `a.Field` is
empty and `b.Field` is not, they are set on `b` only, and only by the two operators that
examine `b` (`StringEquals`, `StringArrayContains`). -/
theorem DNSNameCmp_binds_at_field {Opts State ρ : Type}
    (dEq : StringEvaluator → StringEvaluator → Opts → State → ρ)
    (dVC : StringEvaluator → StringValuesEvaluator → Opts → State → ρ)
    (dAC : StringEvaluator → StringArrayEvaluator → Opts → State → ρ)
    (dAM : StringArrayEvaluator → StringValuesEvaluator → Opts → State → ρ)
    (opts : Opts) (state : State) (s s' : StringEvaluator) (arr : StringArrayEvaluator)
    (vals : StringValuesEvaluator) :
    -- StringEquals
    ((DNSNameCmp.StringEquals dEq s s' opts state).ret =
        dEq (DNSNameCmp.StringEquals dEq s s' opts state).a
          (DNSNameCmp.StringEquals dEq s s' opts state).b opts state ∧
      (s.Field = "" → s'.Field = "" →
        (DNSNameCmp.StringEquals dEq s s' opts state).a = s ∧
        (DNSNameCmp.StringEquals dEq s s' opts state).b = s' ∧
        (DNSNameCmp.StringEquals dEq s s' opts state).ret = dEq s s' opts state) ∧
      (s.Field ≠ "" →
        (DNSNameCmp.StringEquals dEq s s' opts state).a =
          { s with StringCmpOpts :=
              { ScalarCaseInsensitive := true, PatternCaseInsensitive := true } } ∧
        (DNSNameCmp.StringEquals dEq s s' opts state).b = s') ∧
      (s.Field = "" → s'.Field ≠ "" →
        (DNSNameCmp.StringEquals dEq s s' opts state).a = s ∧
        (DNSNameCmp.StringEquals dEq s s' opts state).b =
          { s' with StringCmpOpts :=
              { ScalarCaseInsensitive := true, PatternCaseInsensitive := true } })) ∧
    -- StringValuesContains
    ((DNSNameCmp.StringValuesContains dVC s vals opts state).ret =
        dVC (DNSNameCmp.StringValuesContains dVC s vals opts state).a
          (DNSNameCmp.StringValuesContains dVC s vals opts state).b opts state ∧
      (DNSNameCmp.StringValuesContains dVC s vals opts state).b = vals ∧
      (s.Field = "" →
        (DNSNameCmp.StringValuesContains dVC s vals opts state).a = s ∧
        (DNSNameCmp.StringValuesContains dVC s vals opts state).ret =
          dVC s vals opts state) ∧
      (s.Field ≠ "" →
        (DNSNameCmp.StringValuesContains dVC s vals opts state).a =
          { s with StringCmpOpts :=
              { ScalarCaseInsensitive := true, PatternCaseInsensitive := true } })) ∧
    -- StringArrayContains
    ((DNSNameCmp.StringArrayContains dAC s arr opts state).ret =
        dAC (DNSNameCmp.StringArrayContains dAC s arr opts state).a
          (DNSNameCmp.StringArrayContains dAC s arr opts state).b opts state ∧
      (s.Field = "" → arr.Field = "" →
        (DNSNameCmp.StringArrayContains dAC s arr opts state).a = s ∧
        (DNSNameCmp.StringArrayContains dAC s arr opts state).b = arr ∧
        (DNSNameCmp.StringArrayContains dAC s arr opts state).ret =
          dAC s arr opts state) ∧
      (s.Field ≠ "" →
        (DNSNameCmp.StringArrayContains dAC s arr opts state).a =
          { s with StringCmpOpts :=
              { ScalarCaseInsensitive := true, PatternCaseInsensitive := true } } ∧
        (DNSNameCmp.StringArrayContains dAC s arr opts state).b = arr) ∧
      (s.Field = "" → arr.Field ≠ "" →
        (DNSNameCmp.StringArrayContains dAC s arr opts state).a = s ∧
        (DNSNameCmp.StringArrayContains dAC s arr opts state).b =
          { arr with StringCmpOpts :=
              { ScalarCaseInsensitive := true, PatternCaseInsensitive := true } })) ∧
    -- StringArrayMatches
    ((DNSNameCmp.StringArrayMatches dAM arr vals opts state).ret =
        dAM (DNSNameCmp.StringArrayMatches dAM arr vals opts state).a
          (DNSNameCmp.StringArrayMatches dAM arr vals opts state).b opts state ∧
      (DNSNameCmp.StringArrayMatches dAM arr vals opts state).b = vals ∧
      (arr.Field = "" →
        (DNSNameCmp.StringArrayMatches dAM arr vals opts state).a = arr ∧
        (DNSNameCmp.StringArrayMatches dAM arr vals opts state).ret =
          dAM arr vals opts state) ∧
      (arr.Field ≠ "" →
        (DNSNameCmp.StringArrayMatches dAM arr vals opts state).a =
          { arr with StringCmpOpts :=
              { ScalarCaseInsensitive := true, PatternCaseInsensitive := true } })) := by
  refine ⟨⟨?_, ?_, ?_, ?_⟩, ⟨?_, ?_, ?_, ?_⟩, ⟨?_, ?_, ?_, ?_⟩, ⟨?_, ?_, ?_, ?_⟩⟩
  all_goals simp only [DNSNameCmp.StringEquals, DNSNameCmp.StringValuesContains,
    DNSNameCmp.StringArrayContains, DNSNameCmp.StringArrayMatches, setCaseInsensitive]
  all_goals (try intro h1)
  all_goals (try intro h2)
  all_goals (try split_ifs)
  all_goals simp_all

/-- C2, at a constant compared with the field `dns.question.name`: `StringEquals` sets the
options on `b`, the only operand that reads a field, and leaves `a` alone. -/
theorem DNSNameCmp_binds_at_field_witness :
    (DNSNameCmp.StringEquals (fun _ _ (_ : Unit) (_ : Unit) => ())
        { Value := "abc" } { Field := "dns.question.name" } () ()).a = { Value := "abc" } ∧
    (DNSNameCmp.StringEquals (fun _ _ (_ : Unit) (_ : Unit) => ())
        { Value := "abc" } { Field := "dns.question.name" } () ()).b =
      { Field := "dns.question.name",
        StringCmpOpts := { ScalarCaseInsensitive := true, PatternCaseInsensitive := true } } :=
  (DNSNameCmp_binds_at_field (fun _ _ _ _ => ()) (fun _ _ _ _ => ()) (fun _ _ _ _ => ())
    (fun _ _ _ _ => ()) () () { Value := "abc" } { Field := "dns.question.name" } {} {}).1.2.2.2
    rfl (by decide)

end eval

namespace module

/-- C3. Rate-limiter gate: `SendEvent` calls `rateLimiter.Allow(rule.ID)` exactly once;
the event reaches `apiServer.SendEvent`, with the same rule, event, tag callback and
service, if and only if `Allow` returned true; when `Allow` returned false the only other
call is the trace of the drop, so nothing is sent downstream. `SendEvent` returns no
error, and the model is total: no outcome is a failure. -/
theorem SendEvent_rate_limiter_gate (allowed : Bool) (rule : Rule) (event : Event)
    (extTagsCb : Unit → List String) (service : String) :
    (SendEvent allowed rule event extTagsCb service).filter Call.isRateLimiterAllow =
      [.rateLimiterAllow rule.ID] ∧
    ((SendEvent allowed rule event extTagsCb service).any Call.isAPIServerSendEvent = true ↔
      allowed = true) ∧
    (allowed = true →
      (SendEvent allowed rule event extTagsCb service).filter Call.isAPIServerSendEvent =
        [.apiServerSendEvent rule event extTagsCb service]) ∧
    (allowed = false →
      SendEvent allowed rule event extTagsCb service =
        [.rateLimiterAllow rule.ID,
         .tracef "Event on rule %s was dropped due to rate limiting" rule.ID]) := by
  cases allowed <;>
    simp [SendEvent, Call.isRateLimiterAllow, Call.isAPIServerSendEvent]

/-- C3, at an event on rule `r1` that the rate limiter refuses. -/
theorem SendEvent_rate_limiter_gate_witness :
    SendEvent false ⟨"r1", "1.0"⟩ "open" (fun _ => []) "svc" =
      [.rateLimiterAllow "r1",
       .tracef "Event on rule %s was dropped due to rate limiting" "r1"] :=
  (SendEvent_rate_limiter_gate false ⟨"r1", "1.0"⟩ "open" (fun _ => []) "svc").2.2.2 rfl

/-- C4, as stated, fails: in a pass where `GetApprovers` succeeds, `AddListener(m)` is
called on the new rule set after `currentRuleSet.Store(ruleSet)` has published it. -/
theorem LoadPolicies_addListener_after_store :
    ¬ (∀ c ∈ callsAfter (Call.isStoreRuleSet returnsOK.ruleSet)
          (LoadPolicies returnsOK NewModule ["file"]).log,
        c.mutates returnsOK.ruleSet = false) := by
  intro h
  have h2 := h (.addListener 2) (by
    show Call.addListener 2 ∈ [Call.addListener 2, .rsaApply 2 [("open", ["/etc/shadow"])],
      .listRuleIDs 2, .apiServerApply ["r1", "r2", "abnormal_path"],
      .rateLimiterApply ["r1", "r2", "abnormal_path"], .displayReport "report",
      .prepareRuleSetLoadedReport 2 [], .reportRuleSetLoaded 2 [],
      .storeReloading 0, .unlock]
    exact List.mem_cons_self _ _)
  exact absurd h2 (by decide)

/-- C4, amended. In every execution of `LoadPolicies` the `LoadPolicies` call on the new
standard rule set happens before `currentRuleSet.Store(ruleSet)` publishes it, and after
the `Store` the only state-changing call made on that rule set is `AddListener(m)`, made at
most once. -/
theorem LoadPolicies_mutations_around_store (x : Returns) (m : Module)
    (ps : List PolicyProvider) :
    Call.ruleSetLoadPolicies x.ruleSet x.loader ∈
      callsBefore (Call.isStoreRuleSet x.ruleSet) (LoadPolicies x m ps).log ∧
    (∀ c ∈ callsAfter (Call.isStoreRuleSet x.ruleSet) (LoadPolicies x m ps).log,
      c.mutates x.ruleSet = true → c = .addListener x.ruleSet) ∧
    ((callsAfter (Call.isStoreRuleSet x.ruleSet) (LoadPolicies x m ps).log).filter
      (Call.mutates x.ruleSet)).length ≤ 1 := by
  unfold LoadPolicies LoadPolicies.body callsBefore callsAfter
  rcases x.approvers with e | a <;> rcases x.report with e' | r <;>
    rcases m.rulesLoaded with _ | cb <;> simp only [] <;>
    split_ifs <;>
    simp [Call.isStoreRuleSet, Call.mutates, List.takeWhile, List.dropWhile, List.filter]

/-- C4, amended, at the `AddListener` call of a successful pass. -/
theorem LoadPolicies_mutations_around_store_witness :
    Call.addListener 2 = .addListener returnsOK.ruleSet :=
  (LoadPolicies_mutations_around_store returnsOK NewModule ["file"]).2.1 (.addListener 2)
    (List.mem_cons_self _ _) rfl

/-- C5. Load errors are non-fatal: whatever error collections the two rule-set
`LoadPolicies` calls return, if `GetApprovers` and `rsa.Apply` both succeed then
`Module.LoadPolicies` returns `nil`, the rule set built in the call is the current rule set
afterwards, and the API server and the rate limiter are applied, once each, with the rule
IDs listed from that rule set (followed by the custom rule IDs). -/
theorem LoadPolicies_load_errors_non_fatal (x : Returns) (m : Module)
    (ps : List PolicyProvider) (loadErrs loadApproversErrs : MultiError)
    (approvers : Approvers) (report : Report)
    (ha : x.approvers = .ok approvers) (hr : x.report = .ok report) :
    (LoadPolicies { x with loadErrs := loadErrs, loadApproversErrs := loadApproversErrs }
      m ps).err = none ∧
    (LoadPolicies { x with loadErrs := loadErrs, loadApproversErrs := loadApproversErrs }
      m ps).m.currentRuleSet = some x.ruleSet ∧
    (GetRuleSet (LoadPolicies
      { x with loadErrs := loadErrs, loadApproversErrs := loadApproversErrs } m ps).m).1 =
      some x.ruleSet ∧
    Call.listRuleIDs x.ruleSet ∈ (LoadPolicies
      { x with loadErrs := loadErrs, loadApproversErrs := loadApproversErrs } m ps).log ∧
    (LoadPolicies { x with loadErrs := loadErrs, loadApproversErrs := loadApproversErrs }
      m ps).log.filter Call.isAPIServerApply =
      [.apiServerApply (x.ruleIDs ++ x.customRuleIDs)] ∧
    (LoadPolicies { x with loadErrs := loadErrs, loadApproversErrs := loadApproversErrs }
      m ps).log.filter Call.isRateLimiterApply =
      [.rateLimiterApply (x.ruleIDs ++ x.customRuleIDs)] := by
  unfold GetRuleSet LoadPolicies LoadPolicies.body
  simp only [ha, hr]
  rcases m.rulesLoaded with _ | cb <;> simp only [] <;>
    split_ifs <;> simp [Call.isAPIServerApply, Call.isRateLimiterApply]

/-- C5, at a pass where both rule-set loads report errors. -/
theorem LoadPolicies_load_errors_non_fatal_witness :
    (LoadPolicies { returnsOK with loadErrs := ["rule r3: syntax error"],
                                   loadApproversErrs := ["rule r3: syntax error"] }
      NewModule ["file"]).err = none :=
  (LoadPolicies_load_errors_non_fatal returnsOK NewModule ["file"] ["rule r3: syntax error"]
    ["rule r3: syntax error"] [("open", ["/etc/shadow"])] "report" rfl rfl).1

/-- C6. A reload never leaves the previous generation silently active: after every call
of `Module.LoadPolicies`, either the rule set built in the call is the current rule set,
which `GetRuleSet` then returns, or the call returned an error; so when the rule set built
is not the one that was current before, a `nil` return with the previous rule set still
current does not happen. -/
theorem LoadPolicies_never_silently_stale (x : Returns) (m : Module)
    (ps : List PolicyProvider) :
    (((LoadPolicies x m ps).m.currentRuleSet = some x.ruleSet ∧
        (GetRuleSet (LoadPolicies x m ps).m).1 = some x.ruleSet) ∨
      (LoadPolicies x m ps).err ≠ none) ∧
    (m.currentRuleSet ≠ some x.ruleSet →
      ¬ ((LoadPolicies x m ps).err = none ∧
          (LoadPolicies x m ps).m.currentRuleSet = m.currentRuleSet)) := by
  unfold GetRuleSet LoadPolicies LoadPolicies.body
  rcases x.approvers with e | a <;> rcases x.report with e' | r <;>
    rcases m.rulesLoaded with _ | cb <;> simp <;> intro h1 h2 <;> exact h1 h2.symm

/-- C6, at a reload where no policy loads, over a module whose current rule set is at
address 7: the new, empty rule set at address 2 is not the previous one, so the call does
not return `nil` with the rule set at 7 still current. -/
theorem LoadPolicies_never_silently_stale_witness :
    ¬ ((LoadPolicies returnsNoPolicy { NewModule with currentRuleSet := some 7 } []).err =
          none ∧
        (LoadPolicies returnsNoPolicy
          { NewModule with currentRuleSet := some 7 } []).m.currentRuleSet = some 7) :=
  (LoadPolicies_never_silently_stale returnsNoPolicy
    { NewModule with currentRuleSet := some 7 } []).2 (by decide)

/-- C7. In every execution of `Module.LoadPolicies` exactly two rule sets are built, the
approver rule set and then the standard one; one `PolicyLoader` is created, from the
`policyProviders` argument, and each of the two rule sets is loaded once, from that loader;
`GetApprovers` is called once, on the approver rule set, and when it succeeds the rule set
that is stored, listened to and handed to `rsa.Apply` is the standard one, with the
approvers that `GetApprovers` returned; when it fails no rule set is stored, listened to
or applied. -/
theorem LoadPolicies_two_rule_sets_one_loader (x : Returns) (m : Module)
    (ps : List PolicyProvider) :
    (LoadPolicies x m ps).log.filter Call.buildsRuleSet =
      [.newRuleSet ⟨.probeVariables, .modelEvent, x.customRuleIDs⟩ x.approverRuleSet,
       .probeNewRuleSet ⟨.SECLVariables, .NewProcessVariables, x.customRuleIDs⟩ x.ruleSet] ∧
    (LoadPolicies x m ps).log.filter Call.isNewPolicyLoader =
      [.newPolicyLoader ps x.loader] ∧
    (LoadPolicies x m ps).log.filter Call.isRuleSetLoadPolicies =
      [.ruleSetLoadPolicies x.approverRuleSet x.loader,
       .ruleSetLoadPolicies x.ruleSet x.loader] ∧
    (LoadPolicies x m ps).log.filter Call.isGetApprovers =
      [.getApprovers x.approverRuleSet] ∧
    (∀ approvers, x.approvers = .ok approvers →
      (LoadPolicies x m ps).log.filter Call.publishes =
        [.storeRuleSet x.ruleSet, .addListener x.ruleSet, .rsaApply x.ruleSet approvers]) ∧
    (∀ err, x.approvers = .error err →
      (LoadPolicies x m ps).log.filter Call.publishes = []) := by
  unfold LoadPolicies LoadPolicies.body
  rcases x.approvers with e | a <;> rcases x.report with e' | r <;>
    rcases m.rulesLoaded with _ | cb <;> simp only [] <;>
    split_ifs <;>
    simp [Call.buildsRuleSet, Call.isNewPolicyLoader, Call.isRuleSetLoadPolicies,
      Call.isGetApprovers, Call.publishes]

/-- C7, at a successful pass: the rule set at address 2 (the standard one) is published,
listened to and applied with the approvers computed from the rule set at address 1. -/
theorem LoadPolicies_two_rule_sets_one_loader_witness :
    (LoadPolicies returnsOK NewModule ["file"]).log.filter Call.publishes =
      [.storeRuleSet 2, .addListener 2, .rsaApply 2 [("open", ["/etc/shadow"])]] :=
  (LoadPolicies_two_rule_sets_one_loader returnsOK NewModule ["file"]).2.2.2.2.1
    [("open", ["/etc/shadow"])] rfl

/-- C8. On every successful pass of `Module.LoadPolicies` (one that returns `nil`),
`apiServer.Apply` and `rateLimiter.Apply` are each called once, with the same list: the
result of `ListRuleIDs()` on the rule set built and published in the pass, followed by
`sprobe.AllCustomRuleIDs()`. So every rule ID of the new rule set and every custom rule ID
is in the list, every ID in the list is one of those, and the list is the same whatever
the module held before the pass. -/
theorem LoadPolicies_apply_rule_ids (x : Returns) (m : Module) (ps : List PolicyProvider)
    (hok : (LoadPolicies x m ps).err = none) :
    (LoadPolicies x m ps).log.filter Call.isAPIServerApply =
      [.apiServerApply (x.ruleIDs ++ x.customRuleIDs)] ∧
    (LoadPolicies x m ps).log.filter Call.isRateLimiterApply =
      [.rateLimiterApply (x.ruleIDs ++ x.customRuleIDs)] ∧
    Call.listRuleIDs x.ruleSet ∈ (LoadPolicies x m ps).log ∧
    (LoadPolicies x m ps).m.currentRuleSet = some x.ruleSet ∧
    (∀ id, id ∈ x.ruleIDs ++ x.customRuleIDs ↔ id ∈ x.ruleIDs ∨ id ∈ x.customRuleIDs) ∧
    (∀ m₂ : Module, (LoadPolicies x m₂ ps).err = none ∧
      (LoadPolicies x m₂ ps).log.filter Call.isAPIServerApply =
        (LoadPolicies x m ps).log.filter Call.isAPIServerApply ∧
      (LoadPolicies x m₂ ps).log.filter Call.isRateLimiterApply =
        (LoadPolicies x m ps).log.filter Call.isRateLimiterApply) := by
  have key : ∀ m' : Module, (LoadPolicies x m' ps).err = none →
      (LoadPolicies x m' ps).log.filter Call.isAPIServerApply =
        [.apiServerApply (x.ruleIDs ++ x.customRuleIDs)] ∧
      (LoadPolicies x m' ps).log.filter Call.isRateLimiterApply =
        [.rateLimiterApply (x.ruleIDs ++ x.customRuleIDs)] ∧
      Call.listRuleIDs x.ruleSet ∈ (LoadPolicies x m' ps).log ∧
      (LoadPolicies x m' ps).m.currentRuleSet = some x.ruleSet := by
    intro m'
    unfold LoadPolicies LoadPolicies.body
    rcases x.approvers with e | a <;> rcases x.report with e' | r <;>
      rcases m'.rulesLoaded with _ | cb <;> simp only [] <;>
      split_ifs <;> simp [Call.isAPIServerApply, Call.isRateLimiterApply]
  have herr : ∀ m₂ : Module, (LoadPolicies x m₂ ps).err = (LoadPolicies x m ps).err := by
    intro m₂
    unfold LoadPolicies LoadPolicies.body
    rcases x.approvers with e | a <;> rcases x.report with e' | r <;> rfl
  have hany : ∀ m₂ : Module, (LoadPolicies x m₂ ps).err = none :=
    fun m₂ => (herr m₂).trans hok
  obtain ⟨h1, h2, h3, h4⟩ := key m hok
  refine ⟨h1, h2, h3, h4, fun id => List.mem_append, fun m₂ => ⟨hany m₂, ?_, ?_⟩⟩
  · rw [(key m₂ (hany m₂)).1, h1]
  · rw [(key m₂ (hany m₂)).2.1, h2]

/-- C8, at a successful pass with the rules `r1` and `r2` and one custom rule. -/
theorem LoadPolicies_apply_rule_ids_witness :
    (LoadPolicies returnsOK NewModule ["file"]).log.filter Call.isRateLimiterApply =
      [.rateLimiterApply (["r1", "r2"] ++ ["abnormal_path"])] :=
  (LoadPolicies_apply_rule_ids returnsOK NewModule ["file"] rfl).2.1

/-- C9. Readers see one generation per event: `HandleEvent` makes exactly one `Load` of the
current rule set, through `GetRuleSet`, and evaluates the event against the rule set that
`GetRuleSet` returned and no other, or against nothing when it returned `nil`. After any
run of the module from `NewModule`, `GetRuleSet` returns `nil` when the run made no
`Store`, and otherwise the argument of the last `Store` of the run. -/
theorem HandleEvent_one_generation (m : Module) (event : Event) (ops : List Op) :
    (HandleEvent m event).filter Call.isLoadRuleSet = (GetRuleSet m).2 ∧
    (GetRuleSet m).2 = [.loadRuleSet] ∧
    (∀ rs, (GetRuleSet m).1 = some rs →
      (HandleEvent m event).filter Call.isEvaluate = [.evaluate rs event]) ∧
    ((GetRuleSet m).1 = none → (HandleEvent m event).filter Call.isEvaluate = []) ∧
    ((∀ c ∈ (run NewModule ops).2, ∀ r, c ≠ .storeRuleSet r) →
      (GetRuleSet (run NewModule ops).1).1 = none ∧
      (HandleEvent (run NewModule ops).1 event).filter Call.isEvaluate = []) ∧
    (∀ pre rs post, (run NewModule ops).2 = pre ++ .storeRuleSet rs :: post →
      (∀ c ∈ post, ∀ r, c ≠ .storeRuleSet r) →
      (GetRuleSet (run NewModule ops).1).1 = some rs ∧
      (HandleEvent (run NewModule ops).1 event).filter Call.isEvaluate =
        [.evaluate rs event]) := by
  have hrun := run_current NewModule ops
  refine ⟨?_, rfl, ?_, ?_, ?_, ?_⟩
  · simp only [HandleEvent, GetRuleSet]
    cases m.currentRuleSet <;> rfl
  · intro rs h
    simp only [GetRuleSet] at h
    simp [HandleEvent, GetRuleSet, h, Call.isEvaluate]
  · intro h
    simp only [GetRuleSet] at h
    simp [HandleEvent, GetRuleSet, h, Call.isEvaluate]
  · intro h
    have hc : (run NewModule ops).1.currentRuleSet = none := by
      rw [hrun, currentAfter_of_no_store _ _ h]; rfl
    simp [HandleEvent, GetRuleSet, hc, Call.isEvaluate]
  · intro pre rs post hlog h
    have hc : (run NewModule ops).1.currentRuleSet = some rs := by
      rw [hrun, hlog, currentAfter_last_store _ _ _ _ h]
    simp [HandleEvent, GetRuleSet, hc, Call.isEvaluate]

/-- C9, after one successful `LoadPolicies` that stored the rule set at address 2. -/
theorem HandleEvent_one_generation_witness :
    (HandleEvent (run NewModule [.LoadPolicies returnsOK ["file"]]).1 "open").filter
      Call.isEvaluate = [.evaluate 2 "open"] :=
  ((HandleEvent_one_generation NewModule "open" [.LoadPolicies returnsOK ["file"]]).2.2.2.2.2
    [.logInfo "load policies", .lock, .storeReloading 1, .newRuleSetApplier,
     .newRuleSet ⟨.probeVariables, .modelEvent, ["abnormal_path"]⟩ 1,
     .probeNewRuleSet ⟨.SECLVariables, .NewProcessVariables, ["abnormal_path"]⟩ 2,
     .newPolicyLoader ["file"] 3, .ruleSetLoadPolicies 1 3, .ruleSetLoadPolicies 2 3,
     .getApprovers 1, .getRules 2]
    2
    [.addListener 2, .rsaApply 2 [("open", ["/etc/shadow"])], .listRuleIDs 2,
     .apiServerApply ["r1", "r2", "abnormal_path"],
     .rateLimiterApply ["r1", "r2", "abnormal_path"], .displayReport "report",
     .prepareRuleSetLoadedReport 2 [], .reportRuleSetLoaded 2 [],
     .storeReloading 0, .unlock]
    rfl (by simp)).2

/-- A log without a call of `OnNewDiscarder` pushes no discarder while the flag is 1. -/
theorem pushedWhileReloading_of_none (v : Nat) (l : List Call)
    (h : ∀ c ∈ l, c.isOnNewDiscarder = false) : pushedWhileReloading v l = false := by
  induction l generalizing v with
  | nil => rfl
  | cons c cs ih =>
    have hc := h c (List.mem_cons_self _ _)
    have hcs : ∀ c ∈ cs, c.isOnNewDiscarder = false :=
      fun c' hc' => h c' (List.mem_cons_of_mem _ hc')
    cases c with
    | onNewDiscarder a b d e => simp [Call.isOnNewDiscarder] at hc
    | storeReloading w => exact ih w hcs
    | _ => exact ih v hcs

/-- `LoadPolicies` makes no call of `OnNewDiscarder`. -/
theorem LoadPolicies_no_onNewDiscarder (x : Returns) (m : Module) (ps : List PolicyProvider) :
    ∀ c ∈ (LoadPolicies x m ps).log, c.isOnNewDiscarder = false := by
  have h : (LoadPolicies x m ps).log.all (fun c => !c.isOnNewDiscarder) = true := by
    unfold LoadPolicies LoadPolicies.body
    rcases x.approvers with e | a <;> rcases x.report with e' | r <;>
      rcases m.rulesLoaded with _ | cb <;> simp only [] <;>
      split_ifs <;> simp [Call.isOnNewDiscarder]
  intro c hc
  have := List.all_eq_true.mp h c hc
  simpa using this

/-- No call of a list satisfies a test that fails on each of them. -/
theorem any_eq_false_of_forall (f : Call → Bool) (l : List Call)
    (h : ∀ c ∈ l, f c = false) : l.any f = false := by
  induction l with
  | nil => rfl
  | cons c cs ih =>
    rw [List.any_cons, h c (List.mem_cons_self _ _),
      ih (fun c' hc' => h c' (List.mem_cons_of_mem _ hc'))]
    rfl

/-- `EventDiscarderFound`, run while another goroutine makes calls that are no
`OnNewDiscarder`, forwards exactly when its read of the flag does not return 1. -/
theorem during_any_onNewDiscarder (lp : List Call) (p q : Nat) (err : Option Error)
    (m : Module) (rs : RuleSetRef) (event : Event) (field eventType : String)
    (hlp : ∀ c ∈ lp, c.isOnNewDiscarder = false) :
    (EventDiscarderFound.during lp p q err m rs event field eventType).any
        Call.isOnNewDiscarder =
      !decide (reloadingAfter m.reloading (lp.take p) = 1) := by
  have h1 : (lp.take p).any Call.isOnNewDiscarder = false :=
    any_eq_false_of_forall _ _ (fun c hc => hlp c (List.mem_of_mem_take hc))
  have h2 : ((lp.drop p).take (q - p)).any Call.isOnNewDiscarder = false :=
    any_eq_false_of_forall _ _
      (fun c hc => hlp c (List.mem_of_mem_drop (List.mem_of_mem_take hc)))
  have h3 : ((lp.drop p).drop (q - p)).any Call.isOnNewDiscarder = false :=
    any_eq_false_of_forall _ _
      (fun c hc => hlp c (List.mem_of_mem_drop (List.mem_of_mem_drop hc)))
  simp only [EventDiscarderFound.during, List.any_append, h1, h2, h3, Bool.false_or,
    Bool.or_false]
  unfold EventDiscarderFound
  by_cases hv : reloadingAfter m.reloading (lp.take p) = 1
  · simp [hv, Call.isOnNewDiscarder]
  · cases err <;> simp [hv, Call.isOnNewDiscarder]

/-- C10, as stated, fails: a discarder can be pushed during a policy transition.
`EventDiscarderFound` reads the flag and calls `OnNewDiscarder` in two steps and takes no
lock. Here it reads the flag, still 0, after the second call of a `LoadPolicies` that runs
on another goroutine (its `Lock`), and forwards a discarder found for the previous rule
set, at address 7, after the twelfth call (the `Store` of the new rule set, at address 2):
`OnNewDiscarder` is called while the flag is 1. -/
theorem EventDiscarderFound_pushed_during_transition :
    pushedWhileReloading 0
      (EventDiscarderFound.during
        (LoadPolicies returnsOK { NewModule with currentRuleSet := some 7 } ["file"]).log
        2 12 none { NewModule with currentRuleSet := some 7 } 7 "open" "open.file.path"
        "open") = true := by
  decide

/-- C10, amended. At every point of every run of the module from `NewModule` the
`reloading` flag is 0 or 1, and `EventDiscarderFound` forwards to `probe.OnNewDiscarder`
if and only if its read of the flag returns 0. `LoadPolicies` writes 1 to the flag as its
third call, after `log.Info` and `Lock` and before any rule set is built, and its last two
calls, on every return path, are the deferred write of 0 and `Unlock`. So a discarder for
which `EventDiscarderFound` reads the flag between the two writes is never forwarded,
wherever the rest of `EventDiscarderFound` falls among the calls of `LoadPolicies`, and a
discarder found after `LoadPolicies` has returned is forwarded. Nothing is said of a
forward whose read of the flag came before the write of 1. -/
theorem EventDiscarderFound_reloading_gate (ops : List Op) (k : Nat) (m' : Module)
    (err : Option Error) (rs : RuleSetRef) (event : Event) (field eventType : String)
    (x : Returns) (m : Module) (ps : List PolicyProvider) (p q : Nat) :
    (m'.reloading = reloadingAfter 0 ((run NewModule ops).2.take k) →
      ((EventDiscarderFound err m' rs event field eventType).any Call.isOnNewDiscarder = true ↔
        m'.reloading = 0)) ∧
    (LoadPolicies x m ps).log.take 3 = [.logInfo "load policies", .lock, .storeReloading 1] ∧
    ((LoadPolicies x m ps).log.take 3).any Call.buildsRuleSet = false ∧
    (LoadPolicies x m ps).log.drop ((LoadPolicies x m ps).log.length - 2) =
      [.storeReloading 0, .unlock] ∧
    (3 ≤ p → p + 2 ≤ (LoadPolicies x m ps).log.length →
      reloadingAfter m.reloading ((LoadPolicies x m ps).log.take p) = 1 ∧
      (m'.reloading = reloadingAfter m.reloading ((LoadPolicies x m ps).log.take p) →
        EventDiscarderFound err m' rs event field eventType = [.loadReloading])) ∧
    (LoadPolicies x m ps).m.reloading = 0 ∧
    reloadingAfter m.reloading (LoadPolicies x m ps).log = 0 ∧
    (EventDiscarderFound err (LoadPolicies x m ps).m rs event field eventType).filter
      Call.isOnNewDiscarder = [.onNewDiscarder rs event field eventType] ∧
    (m.reloading ≤ 1 →
      ((EventDiscarderFound.during (LoadPolicies x m ps).log p q err m rs event field
          eventType).any Call.isOnNewDiscarder = true ↔
        reloadingAfter m.reloading ((LoadPolicies x m ps).log.take p) = 0)) ∧
    (3 ≤ p → p + 2 ≤ (LoadPolicies x m ps).log.length →
      (EventDiscarderFound.during (LoadPolicies x m ps).log p q err m rs event field
          eventType).any Call.isOnNewDiscarder = false ∧
      pushedWhileReloading m.reloading
        (EventDiscarderFound.during (LoadPolicies x m ps).log p q err m rs event field
          eventType) = false) := by
  have hdur := during_any_onNewDiscarder (LoadPolicies x m ps).log p q err m rs event field
    eventType (LoadPolicies_no_onNewDiscarder x m ps)
  refine ⟨?_, rfl, rfl, ?_, ?_, rfl, (LoadPolicies_reloading_after x m ps).2, ?_, ?_, ?_⟩
  · intro hm
    have hle : m'.reloading ≤ 1 := by
      rw [hm]
      exact reloadingAfter_le_one 0 _ (by omega)
        (fun c hc w hw => run_stores_le_one NewModule ops c (List.mem_of_mem_take hc) w hw)
    have h01 : m'.reloading = 0 ∨ m'.reloading = 1 := by omega
    rcases h01 with h | h <;> cases err <;>
      simp [EventDiscarderFound, h, Call.isOnNewDiscarder]
  · rw [LoadPolicies_log]
    generalize (LoadPolicies.body x { m with reloading := 1 } ps).log = body
    simp
  · intro h3 hp
    have h1 := LoadPolicies_reloading_during x m ps p h3 hp
    refine ⟨h1, fun hm => ?_⟩
    rw [h1] at hm
    simp [EventDiscarderFound, hm]
  · have h0 : (LoadPolicies x m ps).m.reloading = 0 := rfl
    cases err <;> simp [EventDiscarderFound, h0, Call.isOnNewDiscarder]
  · intro hm
    have hle : reloadingAfter m.reloading ((LoadPolicies x m ps).log.take p) ≤ 1 :=
      reloadingAfter_le_one _ _ hm
        (fun c hc w hw => step_stores_le_one m (.LoadPolicies x ps) c
          (List.mem_of_mem_take hc) w hw)
    rw [hdur]
    simp only [Bool.not_eq_true', decide_eq_false_iff_not]
    omega
  · intro h3 hp
    have h1 := LoadPolicies_reloading_during x m ps p h3 hp
    have hnone : (EventDiscarderFound.during (LoadPolicies x m ps).log p q err m rs event
        field eventType).any Call.isOnNewDiscarder = false := by
      rw [hdur, h1]; rfl
    refine ⟨hnone, pushedWhileReloading_of_none _ _ ?_⟩
    intro c hc
    by_contra hcon
    have : (EventDiscarderFound.during (LoadPolicies x m ps).log p q err m rs event
        field eventType).any Call.isOnNewDiscarder = true :=
      List.any_eq_true.mpr ⟨c, hc, by simpa using hcon⟩
    rw [hnone] at this
    exact absurd this (by simp)

/-- C10, amended, at a discarder whose flag is read after the fifth call of a successful
`LoadPolicies` and whose remaining steps fall after the twelfth: nothing is forwarded. -/
theorem EventDiscarderFound_reloading_gate_witness :
    (EventDiscarderFound.during (LoadPolicies returnsOK NewModule ["file"]).log 5 12 none
      NewModule 7 "open" "open.file.path" "open").any Call.isOnNewDiscarder = false :=
  ((EventDiscarderFound_reloading_gate [] 0 NewModule none 7 "open" "open.file.path" "open"
    returnsOK NewModule ["file"] 5 12).2.2.2.2.2.2.2.2.2 (by decide) (by decide)).1

/-- C11, at the failing input: a pass where only the approver rule set reports a load
error. The callback `rulesLoaded` and the monitor's report receive the standard rule set
(address 2) together with the errors of the approver rule set (address 1), while the
errors of loading the standard rule set itself, here none, are reported nowhere. -/
theorem LoadPolicies_reports_approver_load_errors :
    (LoadPolicies returnsApproverError { NewModule with rulesLoaded := some 0 }
      ["file"]).log.filter Call.reportsLoad =
      [.rulesLoaded 0 2 ["rule r2: unknown variable"],
       .prepareRuleSetLoadedReport 2 ["rule r2: unknown variable"],
       .reportRuleSetLoaded 2 ["rule r2: unknown variable"]] ∧
    (LoadPolicies returnsApproverError { NewModule with rulesLoaded := some 0 }
      ["file"]).log.filter Call.isRuleSetLoadPolicies =
      [.ruleSetLoadPolicies 1 3, .ruleSetLoadPolicies 2 3] ∧
    returnsApproverError.loadErrs = ["rule r2: unknown variable"] ∧
    returnsApproverError.loadApproversErrs = [] := by
  refine ⟨?_, ?_, rfl, rfl⟩ <;> rfl

end module

namespace model

/-- A class repeated `n` times matches exactly when the first `n` bytes are in the class,
and leaves the rest. -/
theorem matchRep_charClass (p : Byte → Bool) (n : Nat) (s rest : Bytes) :
    matchRep (Regexp.charClass p).matchStart n s = some rest ↔
      n ≤ s.length ∧ (∀ b ∈ s.take n, p b = true) ∧ rest = s.drop n := by
  induction n generalizing s with
  | zero =>
    simp only [matchRep, Option.some.injEq, Nat.zero_le, List.take_zero, List.not_mem_nil,
      false_implies, implies_true, List.drop_zero, true_and]
    exact eq_comm
  | succ n ih =>
    cases s with
    | nil => simp [matchRep, Regexp.matchStart]
    | cons b t =>
      by_cases hb : p b = true
      · simp [matchRep, Regexp.matchStart, hb, ih]
      · simp [matchRep, Regexp.matchStart, hb]

/-- The pattern of a container ID matches at the start of `s` exactly when `s` starts with
64 hexadecimal digits. -/
theorem containerIDPattern_matchStart (s rest : Bytes) :
    containerIDPattern.matchStart s = some rest ↔ isContainerIDAt s 0 ∧ rest = s.drop 64 := by
  simp only [containerIDPattern, Regexp.matchStart, sha256Size, matchRep_charClass,
    isContainerIDAt]
  simp [and_assoc]

/-- A window of `b :: t` past the first byte is a window of `t`. -/
theorem isContainerIDAt_cons (b : Byte) (t : Bytes) (i : Nat) :
    isContainerIDAt (b :: t) (i + 1) ↔ isContainerIDAt t i := by
  simp [isContainerIDAt]

/-- `FindString` on the pattern of a container ID returns the leftmost window. -/
theorem FindString_containerID (s : Bytes) :
    ((∀ i, ¬ isContainerIDAt s i) → containerIDPattern.FindString s = []) ∧
    (∀ i, isContainerIDAt s i → (∀ j, j < i → ¬ isContainerIDAt s j) →
      containerIDPattern.FindString s = (s.drop i).take 64) := by
  induction s with
  | nil =>
    refine ⟨fun _ => rfl, fun i hi _ => ?_⟩
    simp [isContainerIDAt] at hi
  | cons b t ih =>
    rcases hm : containerIDPattern.matchStart (b :: t) with _ | rest
    · have h0 : ¬ isContainerIDAt (b :: t) 0 := by
        intro h
        have := (containerIDPattern_matchStart (b :: t) ((b :: t).drop 64)).2 ⟨h, rfl⟩
        rw [hm] at this
        exact absurd this (by simp)
      constructor
      · intro hno
        simp only [Regexp.FindString, hm]
        exact ih.1 (fun i hi => hno (i + 1) ((isContainerIDAt_cons b t i).2 hi))
      · intro i hi hmin
        cases i with
        | zero => exact absurd hi h0
        | succ i =>
          simp only [Regexp.FindString, hm]
          rw [ih.2 i ((isContainerIDAt_cons b t i).1 hi)
            (fun j hj hw => hmin (j + 1) (by omega) ((isContainerIDAt_cons b t j).2 hw))]
          simp
    · obtain ⟨h0, hrest⟩ := (containerIDPattern_matchStart (b :: t) rest).1 hm
      constructor
      · intro hno
        exact absurd h0 (hno 0)
      · intro i hi hmin
        have hi0 : i = 0 := by
          by_contra hne
          exact hmin 0 (Nat.pos_of_ne_zero hne) h0
        subst hi0
        simp only [Regexp.FindString, hm, hrest]
        have hlen := h0.1
        simp only [List.length_drop, List.drop_zero]
        congr 1
        omega

/-- The bytes before the first NUL: a prefix without NUL that is followed by a NUL or by
nothing. -/
theorem beforeNUL_spec (d : Bytes) :
    ∃ rest, d = beforeNUL d ++ rest ∧ (∀ b ∈ beforeNUL d, b ≠ 0) ∧
      (rest = [] ∨ rest.head? = some 0) := by
  refine ⟨d.dropWhile (fun b => b ≠ 0), (List.takeWhile_append_dropWhile _ d).symm, ?_, ?_⟩
  · intro b hb
    have := List.mem_takeWhile_imp hb
    simpa using this
  · induction d with
    | nil => exact Or.inl rfl
    | cons b t ih =>
      by_cases hb : b = 0
      · right
        simp [List.dropWhile, hb]
      · simpa [List.dropWhile, hb] using ih

/-- The bytes before the first NUL are no more than the bytes given. -/
theorem beforeNUL_length_le (d : Bytes) : (beforeNUL d).length ≤ d.length := by
  obtain ⟨rest, h, _⟩ := beforeNUL_spec d
  have := congrArg List.length h
  simp at this
  omega

/-- C12. `FindContainerID` returns the leftmost run of exactly 64 consecutive hexadecimal
digits of `s`: the empty string when no position starts 64 hexadecimal digits, and
otherwise the 64 bytes from the smallest such position; so a non-empty result has length
64, consists of hexadecimal digits only, and is a contiguous part of `s`. -/
theorem FindContainerID_leftmost (s : Bytes) :
    ((∀ i, ¬ isContainerIDAt s i) → FindContainerID s = []) ∧
    (∀ i, isContainerIDAt s i → (∀ j, j < i → ¬ isContainerIDAt s j) →
      FindContainerID s = (s.drop i).take 64) ∧
    (FindContainerID s ≠ [] →
      (FindContainerID s).length = 64 ∧ (∀ b ∈ FindContainerID s, isXDigit b = true) ∧
      FindContainerID s <:+: s) := by
  refine ⟨(FindString_containerID s).1, (FindString_containerID s).2, fun hne => ?_⟩
  classical
  have hex : ∃ i, isContainerIDAt s i := by
    by_contra hno
    exact hne ((FindString_containerID s).1 (fun i hi => hno ⟨i, hi⟩))
  have hmin : ∀ j, j < Nat.find hex → ¬ isContainerIDAt s j := fun j hj => Nat.find_min hex hj
  have hfind := Nat.find_spec hex
  have heq : FindContainerID s = (s.drop (Nat.find hex)).take 64 :=
    (FindString_containerID s).2 _ hfind hmin
  rw [heq]
  refine ⟨?_, hfind.2, ?_⟩
  · have := hfind.1
    simp only [List.length_take, List.length_drop]
    omega
  · exact (List.take_prefix _ _).isInfix.trans (List.drop_suffix _ _).isInfix

set_option maxRecDepth 8192 in
/-- C12, at a cgroup path: a slash, 64 letters `a`, then `.scope`. -/
theorem FindContainerID_leftmost_witness :
    FindContainerID ([47] ++ List.replicate 64 97 ++ [46, 115, 99, 111, 112, 101]) =
      (([47] ++ List.replicate 64 97 ++ [46, 115, 99, 111, 112, 101] : Bytes).drop 1).take 64 :=
  (FindContainerID_leftmost ([47] ++ List.replicate 64 97 ++ [46, 115, 99, 111, 112, 101])).2.1
    1 (by decide) (by decide)

/-- C13. `UnmarshalString` fails with `ErrNotEnoughData`, and the empty string, exactly when
`len(data) < size`, and returns no other error. For `0 <= size <= len(data)` it returns,
with a `nil` error, the bytes of `data[0..size)` before the first NUL byte (all of them
when there is none): the result has no NUL byte, is at most `size` long, and is the same
for any other data with the same first `size` bytes. -/
theorem UnmarshalString_spec (data : Bytes) (size : Int) :
    ((data.length : Int) < size → UnmarshalString data size = .ret [] (some .ErrNotEnoughData)) ∧
    (∀ v e, UnmarshalString data size = .ret v (some e) →
      (data.length : Int) < size ∧ v = [] ∧ e = .ErrNotEnoughData) ∧
    (0 ≤ size → size ≤ (data.length : Int) →
      ∃ r rest, UnmarshalString data size = .ret r none ∧
        data.take size.toNat = r ++ rest ∧ (∀ b ∈ r, b ≠ 0) ∧
        (rest = [] ∨ rest.head? = some 0) ∧
        (r.length : Int) ≤ size ∧
        ∀ data' : Bytes, size ≤ (data'.length : Int) →
          data'.take size.toNat = data.take size.toNat →
          UnmarshalString data' size = .ret r none) := by
  refine ⟨?_, ?_, ?_⟩
  · intro h
    simp [UnmarshalString, h]
  · intro v e h
    unfold UnmarshalString at h
    split_ifs at h with h1 h2
    · simp only [Result.ret.injEq, Option.some.injEq] at h
      obtain ⟨hv, he⟩ := h
      subst hv
      subst he
      exact ⟨h1, rfl, rfl⟩
    · cases hs : slice data 0 size.toNat <;> simp [hs] at h
  · intro h0 hle
    have hn : size.toNat ≤ data.length := by omega
    have key : ∀ d : Bytes, size ≤ (d.length : Int) →
        UnmarshalString d size = .ret (beforeNUL (d.take size.toNat)) none := by
      intro d hd
      have hdn : size.toNat ≤ d.length := by omega
      simp [UnmarshalString, slice, not_lt.mpr hd, not_lt.mpr h0, hdn]
    obtain ⟨rest, hsplit, hnul, hrest⟩ := beforeNUL_spec (data.take size.toNat)
    refine ⟨beforeNUL (data.take size.toNat), rest, key data hle, hsplit, hnul, hrest, ?_, ?_⟩
    · have := beforeNUL_length_le (data.take size.toNat)
      simp only [List.length_take] at this
      omega
    · intro data' hd' htake
      rw [key data' hd', htake]

/-- C13, at four bytes with a NUL in third place. -/
theorem UnmarshalString_spec_witness :
    UnmarshalString [65, 66, 0, 67] 5 = .ret [] (some .ErrNotEnoughData) :=
  (UnmarshalString_spec [65, 66, 0, 67] 5).1 (by decide)

/-- C14. `UnmarshalPrintableString` returns a string with a `nil` error exactly when
`UnmarshalString(data, size)` succeeds with a string that satisfies `IsPrintable`, and it
is that string; it returns `("", ErrNotEnoughData)` when `len(data) < size` and
`("", ErrNonPrintable)` when the decoded string is not printable; so a string returned
with a `nil` error is printable. -/
theorem UnmarshalPrintableString_spec (IsPrintable : Bytes → Bool) (data : Bytes)
    (size : Int) :
    (∀ s, UnmarshalPrintableString IsPrintable data size = .ret s none ↔
      (UnmarshalString data size = .ret s none ∧ IsPrintable s = true)) ∧
    ((data.length : Int) < size →
      UnmarshalPrintableString IsPrintable data size = .ret [] (some .ErrNotEnoughData)) ∧
    (∀ s, UnmarshalString data size = .ret s none → IsPrintable s = false →
      UnmarshalPrintableString IsPrintable data size = .ret [] (some .ErrNonPrintable)) ∧
    (∀ s, UnmarshalPrintableString IsPrintable data size = .ret s none →
      IsPrintable s = true) := by
  have hiff : ∀ s, UnmarshalPrintableString IsPrintable data size = .ret s none ↔
      (UnmarshalString data size = .ret s none ∧ IsPrintable s = true) := by
    intro s
    unfold UnmarshalPrintableString
    by_cases hlt : (data.length : Int) < size
    · simp [hlt, UnmarshalString]
    · simp only [hlt, if_false]
      rcases hu : UnmarshalString data size with ⟨v, _ | e⟩ | _ | _
      · by_cases hp : IsPrintable v = true
        · simp only [hp, Bool.not_true, Bool.false_eq_true, if_false, Result.ret.injEq,
            and_true]
          constructor
          · rintro rfl; exact ⟨rfl, hp⟩
          · rintro ⟨h, _⟩; exact h
        · simp only [Bool.not_eq_true] at hp
          simp only [hp, Bool.not_false, if_true, Result.ret.injEq, and_true]
          constructor
          · intro h; simp at h
          · rintro ⟨rfl, h⟩; rw [hp] at h; simp at h
      · simp
      · simp
      · simp
  refine ⟨hiff, ?_, ?_, fun s h => ((hiff s).1 h).2⟩
  · intro h
    simp [UnmarshalPrintableString, h]
  · intro s hu hp
    have hlt : ¬ (data.length : Int) < size := by
      intro h
      simp [UnmarshalString, h] at hu
    simp [UnmarshalPrintableString, hlt, hu, hp]

/-- C14, at `"AB"` followed by a NUL, with the bytes from 32 to 126 as the printable
ones. -/
theorem UnmarshalPrintableString_spec_witness :
    UnmarshalPrintableString (fun s => s.all (fun b => 32 ≤ b.val && b.val ≤ 126))
      [65, 66, 0, 67] 4 = .ret [65, 66] none :=
  ((UnmarshalPrintableString_spec (fun s => s.all (fun b => 32 ≤ b.val && b.val ≤ 126))
    [65, 66, 0, 67] 4).1 [65, 66]).2 ⟨by decide, by decide⟩

/-- `PutUint32` writes four bytes. -/
theorem PutUint32_length (bo : ByteOrder) (v : Nat) : (bo.PutUint32 v).length = 4 := by
  cases bo <;> rfl

/-- `Uint32` reads back what `PutUint32` wrote, for a value that fits 32 bits. -/
theorem Uint32_PutUint32 (bo : ByteOrder) (v : Nat) (hv : v < 2 ^ 32) :
    bo.Uint32 (bo.PutUint32 v) = some v := by
  cases bo <;>
    simp only [ByteOrder.PutUint32, ByteOrder.Uint32, toByte, Option.some.injEq] <;>
    norm_num at hv ⊢ <;> omega

/-- The slice of the middle of three lists in a row. -/
theorem slice_append (pre mid post : Bytes) :
    slice (pre ++ mid ++ post) pre.length (pre.length + mid.length) = some mid := by
  simp [slice, List.take_append_eq_append_take, List.drop_append_eq_append_drop]

/-- A string without NUL byte is all before its first NUL. -/
theorem beforeNUL_of_no_NUL (s : Bytes) (h : ∀ b ∈ s, b ≠ 0) : beforeNUL s = s := by
  unfold beforeNUL
  rw [List.takeWhile_eq_self_iff]
  intro b hb
  simpa using h b hb

/-- An encoding is at least as long as the number of strings encoded. -/
theorem length_le_encodeStringArray (bo : ByteOrder) (l : List Bytes) :
    l.length ≤ (encodeStringArray bo l).length := by
  induction l with
  | nil => simp [encodeStringArray]
  | cons s l ih =>
    simp only [encodeStringArray, List.flatMap_cons, List.length_append, List.length_cons,
      PutUint32_length] at ih ⊢
    omega

/-- The loop of `UnmarshalStringArray`, started where the encoding of `l` begins, decodes
`l` and returns with a `nil` error. -/
theorem loop_encodeStringArray (bo : ByteOrder) (l : List Bytes)
    (hl : ∀ s ∈ l, s ≠ [] ∧ ∀ b ∈ s, b ≠ 0) :
    ∀ (data pre : Bytes) (acc : List Bytes) (fuel : Nat),
      data = pre ++ encodeStringArray bo l → data.length < 2 ^ 32 → l.length < fuel →
      UnmarshalStringArray.loop bo data data.length fuel pre.length acc =
        .ret (acc ++ l) none := by
  induction l with
  | nil =>
    intro data pre acc fuel hdata _ hfuel
    obtain ⟨f, rfl⟩ : ∃ f, fuel = f + 1 := ⟨fuel - 1, by simp at hfuel; omega⟩
    subst hdata
    simp [UnmarshalStringArray.loop, encodeStringArray]
  | cons s l ih =>
    intro data pre acc fuel hdata hlen hfuel
    obtain ⟨f, rfl⟩ : ∃ f, fuel = f + 1 := ⟨fuel - 1, by simp at hfuel; omega⟩
    obtain ⟨hs, hnul⟩ := hl s (List.mem_cons_self _ _)
    have hspos : 0 < s.length := List.length_pos.mpr hs
    have hd1 : data = pre ++ bo.PutUint32 s.length ++ (s ++ encodeStringArray bo l) := by
      rw [hdata]; simp [encodeStringArray]
    have hd2 : data = (pre ++ bo.PutUint32 s.length) ++ s ++ encodeStringArray bo l := by
      rw [hdata]; simp [encodeStringArray]
    have hdlen : data.length =
        pre.length + 4 + s.length + (encodeStringArray bo l).length := by
      rw [hd2]; simp [PutUint32_length]; omega
    have hsl1 : slice data pre.length (pre.length + 4) = some (bo.PutUint32 s.length) := by
      have := slice_append pre (bo.PutUint32 s.length) (s ++ encodeStringArray bo l)
      rwa [PutUint32_length, ← hd1] at this
    have hsl2 : slice data (pre.length + 4) (pre.length + 4 + s.length) = some s := by
      have := slice_append (pre ++ bo.PutUint32 s.length) s (encodeStringArray bo l)
      rwa [List.length_append, PutUint32_length, ← hd2] at this
    have hm1 : (pre.length + 4) % 2 ^ 32 = pre.length + 4 := Nat.mod_eq_of_lt (by omega)
    have hm2 : (pre.length + 4 + s.length) % 2 ^ 32 = pre.length + 4 + s.length :=
      Nat.mod_eq_of_lt (by omega)
    have hu : bo.Uint32 (bo.PutUint32 s.length) = some s.length :=
      Uint32_PutUint32 bo s.length (by omega)
    have hrec := ih (fun t ht => hl t (List.mem_cons_of_mem _ ht)) data
      (pre ++ bo.PutUint32 s.length ++ s) (acc ++ [s]) f hd2 hlen
      (by simp at hfuel; omega)
    simp only [List.length_append, PutUint32_length] at hrec
    unfold UnmarshalStringArray.loop
    have hc1 : pre.length < data.length := by omega
    have hc2 : ¬ (pre.length + 4 ≥ data.length) := by omega
    have hc3 : s.length ≠ 0 := by omega
    have hc4 : ¬ (pre.length + 4 + s.length > data.length) := by omega
    simp only [hc1, if_true, hm1, hc2, if_false, hsl1, Option.some_bind, hu, hc3, hm2, hc4,
      hsl2, beforeNUL_of_no_NUL s hnul, hrec, List.append_assoc, List.singleton_append]

/-- C15. Decode undoes encode for string arrays: for every list `l` of non-empty strings
without NUL byte whose encoding (for each string in order, its length as a 4-byte
`ByteOrder` `uint32`, then its bytes) is shorter than `2 ^ 32`, `UnmarshalStringArray`
applied to the encoding returns `l` with a `nil` error; in particular the empty input
gives the empty result with a `nil` error. -/
theorem UnmarshalStringArray_encodeStringArray (bo : ByteOrder) (l : List Bytes)
    (hl : ∀ s ∈ l, s ≠ [] ∧ ∀ b ∈ s, b ≠ 0)
    (hlen : (encodeStringArray bo l).length < 2 ^ 32) :
    UnmarshalStringArray bo (encodeStringArray bo l) = .ret l none ∧
    UnmarshalStringArray bo [] = .ret [] none := by
  refine ⟨?_, rfl⟩
  have h := loop_encodeStringArray bo l hl (encodeStringArray bo l) [] []
    ((encodeStringArray bo l).length + 1) rfl hlen
    (Nat.lt_succ_of_le (length_le_encodeStringArray bo l))
  unfold UnmarshalStringArray
  rw [Nat.mod_eq_of_lt hlen]
  simpa using h

/-- C15, at the strings `"AB"` and `"C"` in little-endian order. -/
theorem UnmarshalStringArray_encodeStringArray_witness :
    UnmarshalStringArray .LittleEndian [2, 0, 0, 0, 65, 66, 1, 0, 0, 0, 67] =
      .ret [[65, 66], [67]] none :=
  (UnmarshalStringArray_encodeStringArray .LittleEndian [[65, 66], [67]] (by simp)
    (by norm_num [encodeStringArray, PutUint32_length])).1

/-- C16, at the failing input: five bytes, a size field of `0xFFFFFFFF` and one byte of
content. The declared size exceeds the one byte that remains, yet `i+n` wraps around to 3
in `uint32`, the test `i+n > length` does not hold, and `data[4:3]` panics: no
`ErrStringArrayOverflow` is returned. -/
theorem UnmarshalStringArray_size_wraps (bo : ByteOrder) :
    UnmarshalStringArray bo [255, 255, 255, 255, 65] = .panic ∧
    bo.Uint32 [255, 255, 255, 255] = some (2 ^ 32 - 1) ∧
    (4 + (2 ^ 32 - 1)) % 2 ^ 32 = 3 := by
  cases bo <;> decide

/-- A slice expression that does not panic has its bounds in order. -/
theorem slice_some_le (data d : Bytes) (lo hi : Nat) (h : slice data lo hi = some d) :
    lo ≤ hi := by
  unfold slice at h
  split_ifs at h with hb
  exact hb.1

/-- The loop of `UnmarshalStringArray` ends before the bound on its iterations is reached,
when that bound is above `length - i`. -/
theorem loop_ne_fuel (bo : ByteOrder) (data : Bytes) (length : Nat) :
    ∀ (fuel i : Nat) (acc : List Bytes), length - i < fuel →
      UnmarshalStringArray.loop bo data length fuel i acc ≠ .fuel := by
  intro fuel
  induction fuel with
  | zero => intro i acc h; omega
  | succ fuel ih =>
    intro i acc h
    unfold UnmarshalStringArray.loop
    split_ifs with h1 h2
    · simp
    · split
      · simp
      · next n hn =>
        obtain ⟨b, hb, _⟩ := Option.bind_eq_some.mp hn
        have hle := slice_some_le _ _ _ _ hb
        split_ifs with h3
        · simp
        · simp only []
          split_ifs with h4
          · split <;> simp
          · split
            · simp
            · next d hd =>
              have hle2 := slice_some_le _ _ _ _ hd
              apply ih
              norm_num at hle hle2 h2 h4 ⊢
              omega
    · simp

/-- `UnmarshalStringArray` returns or panics: the bound on the iterations of the model is
never reached. -/
theorem UnmarshalStringArray_ne_fuel (bo : ByteOrder) (data : Bytes) :
    UnmarshalStringArray bo data ≠ .fuel := by
  unfold UnmarshalStringArray
  apply loop_ne_fuel
  have := Nat.mod_le data.length (2 ^ 32)
  omega

end model

namespace module

/-- In a map whose values are all `true`, a key that was written reads `true`. -/
theorem lookup_of_mem_of_all_true (e : List (EventType × Bool)) (k : EventType)
    (hall : ∀ p ∈ e, p.2 = true) (hk : (k, true) ∈ e) : e.lookup k = some true := by
  induction e with
  | nil => simp at hk
  | cons p t ih =>
    obtain ⟨a, b⟩ := p
    have hb : b = true := hall (a, b) (List.mem_cons_self _ _)
    subst hb
    by_cases hka : k = a
    · subst hka
      simp [List.lookup]
    · have hne : (k == a) = false := by simpa using hka
      rw [List.lookup, hne]
      apply ih (fun p hp => hall p (List.mem_cons_of_mem _ hp))
      rcases List.mem_cons.mp hk with h | h
      · exact absurd (congrArg Prod.fst h) hka
      · exact h

/-- The inner loop keeps every entry, writes only `true`, and writes every event type of
its list. -/
theorem enableAll_spec (eventTypes : List EventType) (e : List (EventType × Bool)) :
    (∀ p ∈ e, p ∈ enableAll e eventTypes) ∧
    ((∀ p ∈ e, p.2 = true) → ∀ p ∈ enableAll e eventTypes, p.2 = true) ∧
    (∀ et ∈ eventTypes, (et, true) ∈ enableAll e eventTypes) := by
  induction eventTypes generalizing e with
  | nil => simp [enableAll]
  | cons a t ih =>
    have h := ih ((a, true) :: e)
    simp only [enableAll, List.foldl_cons] at h ⊢
    refine ⟨fun p hp => h.1 p (List.mem_cons_of_mem _ hp), fun hall => h.2.1 ?_, ?_⟩
    · intro p hp
      rcases List.mem_cons.mp hp with rfl | hp
      · rfl
      · exact hall p hp
    · intro et het
      rcases List.mem_cons.mp het with rfl | het
      · exact h.1 _ (List.mem_cons_self _ _)
      · exact h.2.2 et het

/-- The loop over the categories keeps every entry, writes only `true`, and writes every
event type of every category it does not skip. -/
theorem runtimeLoop_spec (cats : Categories) (all : List EventCategory)
    (e : List (EventType × Bool)) :
    (∀ p ∈ e, p ∈ all.foldl (fun enabled category =>
        if category == cats.FIMCategory || category == cats.NetworkCategory then enabled
        else
          match cats.GetEventTypePerCategory.lookup category with
          | some eventTypes => enableAll enabled eventTypes
          | none => enabled) e) ∧
    ((∀ p ∈ e, p.2 = true) → ∀ p ∈ all.foldl (fun enabled category =>
        if category == cats.FIMCategory || category == cats.NetworkCategory then enabled
        else
          match cats.GetEventTypePerCategory.lookup category with
          | some eventTypes => enableAll enabled eventTypes
          | none => enabled) e, p.2 = true) ∧
    (∀ category ∈ all, category ≠ cats.FIMCategory → category ≠ cats.NetworkCategory →
      ∀ eventTypes, cats.GetEventTypePerCategory.lookup category = some eventTypes →
      ∀ et ∈ eventTypes, (et, true) ∈ all.foldl (fun enabled category =>
        if category == cats.FIMCategory || category == cats.NetworkCategory then enabled
        else
          match cats.GetEventTypePerCategory.lookup category with
          | some eventTypes => enableAll enabled eventTypes
          | none => enabled) e) := by
  induction all generalizing e with
  | nil => simp
  | cons c t ih =>
    simp only [List.foldl_cons]
    by_cases hskip : (c == cats.FIMCategory || c == cats.NetworkCategory) = true
    · simp only [hskip, if_true]
      refine ⟨(ih e).1, (ih e).2.1, ?_⟩
      intro category hcat hF hN ets hl et het
      rcases List.mem_cons.mp hcat with rfl | hcat
      · simp [hF, hN] at hskip
      · exact (ih e).2.2 category hcat hF hN ets hl et het
    · simp only [hskip]
      rcases hlc : cats.GetEventTypePerCategory.lookup c with _ | ets'
      · simp only [Bool.false_eq_true, if_false]
        refine ⟨(ih e).1, (ih e).2.1, ?_⟩
        intro category hcat hF hN ets hl et het
        rcases List.mem_cons.mp hcat with rfl | hcat
        · rw [hlc] at hl; simp at hl
        · exact (ih e).2.2 category hcat hF hN ets hl et het
      · simp only [Bool.false_eq_true, if_false]
        have hen := enableAll_spec ets' e
        refine ⟨fun p hp => (ih _).1 p (hen.1 p hp), fun hall => (ih _).2.1 (hen.2.1 hall), ?_⟩
        intro category hcat hF hN ets hl et het
        rcases List.mem_cons.mp hcat with rfl | hcat
        · rw [hlc] at hl
          simp only [Option.some.injEq] at hl
          subst hl
          exact (ih _).1 _ (hen.2.2 et het)
        · exact (ih _).2.2 category hcat hF hN ets hl et het

/-- Every value of the map built by `getEventTypeEnabled` is `true`. -/
theorem getEventTypeEnabled_all_true (config : Config) (cats : Categories) :
    ∀ p ∈ getEventTypeEnabled config cats, p.2 = true := by
  unfold getEventTypeEnabled
  have h0 : ∀ p ∈ ([] : List (EventType × Bool)), p.2 = true := by simp
  have h1 : ∀ p ∈ (if config.FIMEnabled then
      match cats.GetEventTypePerCategory.lookup cats.FIMCategory with
      | some eventTypes => enableAll [] eventTypes
      | none => [] else []), p.2 = true := by
    split_ifs
    · split
      · exact (enableAll_spec _ _).2.1 h0
      · exact h0
    · exact h0
  simp only []
  generalize (if config.FIMEnabled then
      match cats.GetEventTypePerCategory.lookup cats.FIMCategory with
      | some eventTypes => enableAll [] eventTypes
      | none => [] else []) = e1 at h1 ⊢
  have h2 : ∀ p ∈ (if config.NetworkEnabled then
      match cats.GetEventTypePerCategory.lookup cats.NetworkCategory with
      | some eventTypes => enableAll e1 eventTypes
      | none => e1 else e1), p.2 = true := by
    split_ifs
    · split
      · exact (enableAll_spec _ _).2.1 h1
      · exact h1
    · exact h1
  generalize (if config.NetworkEnabled then
      match cats.GetEventTypePerCategory.lookup cats.NetworkCategory with
      | some eventTypes => enableAll e1 eventTypes
      | none => e1 else e1) = e2 at h2 ⊢
  split_ifs
  · exact (runtimeLoop_spec cats _ e2).2.1 h2
  · exact h2

/-- With `RuntimeEnabled` set, every event type listed under a category of
`GetAllCategories` other than the FIM category is mapped to `true`, provided the category
is not the network category or `NetworkEnabled` is set as well. -/
theorem getEventTypeEnabled_runtime (config : Config) (cats : Categories)
    (hr : config.RuntimeEnabled = true)
    (category : EventCategory) (hcat : category ∈ cats.GetAllCategories)
    (hF : category ≠ cats.FIMCategory)
    (hN : category ≠ cats.NetworkCategory ∨ config.NetworkEnabled = true)
    (eventTypes : List EventType)
    (hl : cats.GetEventTypePerCategory.lookup category = some eventTypes)
    (et : EventType) (het : et ∈ eventTypes) :
    (getEventTypeEnabled config cats).lookup et = some true := by
  apply lookup_of_mem_of_all_true _ _ (getEventTypeEnabled_all_true config cats)
  by_cases hcn : category = cats.NetworkCategory
  · have hnet : config.NetworkEnabled = true := hN.resolve_left (fun h => h hcn)
    subst hcn
    unfold getEventTypeEnabled
    simp only [hr, hnet, if_true, hl]
    exact (runtimeLoop_spec cats _ _).1 _ ((enableAll_spec _ _).2.2 et het)
  · unfold getEventTypeEnabled
    simp only [hr, if_true]
    exact (runtimeLoop_spec cats _ _).2.2 category hcat hF hcn eventTypes hl et het

/-- The event type `exec` of the process category is enabled by `RuntimeEnabled` alone. -/
theorem getEventTypeEnabled_runtime_witness :
    (getEventTypeEnabled ⟨false, false, true⟩ exampleCategories).lookup "exec" = some true :=
  getEventTypeEnabled_runtime ⟨false, false, true⟩ exampleCategories rfl "Process Activity"
    (by decide) (by decide) (Or.inl (by decide)) ["exec"] (by decide) "exec" (by decide)

/-- C17, at the failing input: `RuntimeEnabled` set, `FIMEnabled` and `NetworkEnabled` not
set. The network category is a category of `GetAllCategories` other than the FIM category
and lists the event type `dns`, yet the loop under the comment `everything but FIM` skips
it: the map returned holds `exec` and `bpf` only, and `dns` is not mapped to `true`. -/
theorem getEventTypeEnabled_network_skipped :
    getEventTypeEnabled ⟨false, false, true⟩ exampleCategories =
      [("bpf", true), ("exec", true)] ∧
    (getEventTypeEnabled ⟨false, false, true⟩ exampleCategories).lookup "dns" = none ∧
    "Network Activity" ∈ exampleCategories.GetAllCategories ∧
    "Network Activity" ≠ exampleCategories.FIMCategory ∧
    exampleCategories.GetEventTypePerCategory.lookup "Network Activity" = some ["dns"] := by
  decide

end module
